import Mathlib

/-!
Verification of the `zelos_extension_modbus` register access layer.

This file gives a shallow embedding of the core of the repository:

* `src/zelos_extension_modbus/client.py` — the value codec
  (`_reorder_registers`, `decode_value`, `encode_value`), the
  connection-loss classifier `_is_connection_error`, one iteration of the
  polling loop `_run_async`, and the write paths
  (`write_register_value`, `write_named_register`);
* `src/zelos_extension_modbus/register_map.py` — `Register` (with its
  `__post_init__` validation), `RegisterMap.from_dict` and the derived
  views (`registers`, `writable_registers`, `get_by_name`).

Modelling conventions:

* Python `int` is `ℤ` (register words, which are nonnegative 16-bit values
  on the wire, are `ℕ`).
* Python `float` is an exact rational (`ℚ`) together with an explicit
  rounding function `roundF64` (round to nearest, ties to even, 53-bit
  significand, minimum scale `2^-1074`) applied exactly where CPython
  performs a binary64 operation or an int→float conversion.  Infinities
  and NaNs lie outside this rational model: the bits→value map returns
  `none` for them, and no theorem below touches inputs that produce them.
* Fallible Python code (a raised `KeyError` / `ValueError` /
  `struct.error`, an out-of-range subscript) is `Option` / `Except`.
-/

set_option maxRecDepth 40000

namespace Modbus

/-! ### Python-flavoured numeric helpers -/

/-- Python `int(x)` applied to a float: truncation of a rational toward zero. -/
def pytrunc (q : ℚ) : ℤ :=
  q.num.tdiv (q.den : ℤ)

/-- Floor of a rational (helper for the round-to-nearest-even model). -/
def qfloor (q : ℚ) : ℤ :=
  q.num.fdiv (q.den : ℤ)

/-- Round a rational to the nearest integer, ties to even (the IEEE-754
default rounding used by CPython float arithmetic). -/
def roundHalfEven (x : ℚ) : ℤ :=
  let n := qfloor x
  let r := x - (n : ℚ)
  if r < 1/2 then n
  else if 1/2 < r then n + 1
  else if n % 2 = 0 then n else n + 1

/-- Fuelled binary logarithm on naturals (structural recursion on the fuel,
so that it evaluates inside the kernel). -/
def log2F : ℕ → ℕ → ℕ
  | 0, _ => 0
  | f + 1, n => if n ≤ 1 then 0 else log2F f (n / 2) + 1

/-- Binary logarithm: `nlog2 n = ⌊log₂ n⌋` for `1 ≤ n`. -/
def nlog2 (n : ℕ) : ℕ :=
  log2F n n

/-- The exponent `e` with `2^e ≤ q < 2^(e+1)`, for a positive rational `q`. -/
def findExp (q : ℚ) : ℤ :=
  if q ≤ 0 then 0
  else if q < (2 : ℚ) ^ ((nlog2 q.num.toNat : ℤ) - (nlog2 q.den : ℤ)) then
    (nlog2 q.num.toNat : ℤ) - (nlog2 q.den : ℤ) - 1
  else
    (nlog2 q.num.toNat : ℤ) - (nlog2 q.den : ℤ)

/-- The scale of the last significant bit used when rounding `q` to a float
with `p` significant bits and minimum scale `2^smin`. -/
def roundScale (p : ℕ) (smin : ℤ) (q : ℚ) : ℤ :=
  max (findExp |q| - ((p : ℤ) - 1)) smin

/-- Round a rational to a binary floating-point value with `p` significant
bits and minimum scale `2^smin` (round to nearest, ties to even). -/
def roundFloat (p : ℕ) (smin : ℤ) (q : ℚ) : ℚ :=
  if q = 0 then 0
  else
    (roundHalfEven (q / (2 : ℚ) ^ roundScale p smin q) : ℚ) * (2 : ℚ) ^ roundScale p smin q

/-- Rounding to IEEE-754 binary64: every CPython `float` operation (and every
int→float conversion) rounds its exact result through this function. -/
def roundF64 (q : ℚ) : ℚ :=
  roundFloat 53 (-1074) q

/-- Rounding to IEEE-754 binary32, as performed by `struct.pack(">f", ·)`. -/
def roundF32 (q : ℚ) : ℚ :=
  roundFloat 24 (-149) q

/-- The rational `q` is exactly representable as a binary float with `p`
significant bits and minimum scale `2^smin` (`p = 53, smin = -1074` is
binary64; `p = 24, smin = -149` is binary32). -/
def FloatRep (p : ℕ) (smin : ℤ) (q : ℚ) : Prop :=
  ∃ m : ℤ, ∃ t : ℤ, q = (m : ℚ) * (2 : ℚ) ^ t ∧ m.natAbs < 2 ^ p ∧ smin ≤ t

/-- Largest finite binary32 value, `(2^24 - 1) * 2^104`. -/
def maxF32 : ℚ :=
  ((2 ^ 24 - 1 : ℕ) : ℚ) * (2 : ℚ) ^ (104 : ℕ)

/-- Largest finite binary64 value, `(2^53 - 1) * 2^971`. -/
def maxF64 : ℚ :=
  ((2 ^ 53 - 1 : ℕ) : ℚ) * (2 : ℚ) ^ (971 : ℕ)

/-! ### IEEE-754 bit patterns

`struct.pack`/`struct.unpack` with the `>f` / `>d` formats convert between
a float value and its big-endian IEEE-754 interchange encoding.  We model
the encoding as a natural number below `2^32` (resp. `2^64`), built from
`fb` fraction bits and `eb` exponent bits. -/

/-- The sign factor of an IEEE-754 bit pattern with `fb` fraction bits and
`eb` exponent bits. -/
def bitsSign (fb eb bits : ℕ) : ℚ :=
  if bits / 2 ^ (fb + eb) % 2 = 1 then -1 else 1

/-- Value of an IEEE-754 bit pattern (`fb` fraction bits, `eb` exponent
bits); `none` for the infinity/NaN patterns, which lie outside the exact
rational model. -/
def floatValOfBits (fb eb : ℕ) (bits : ℕ) : Option ℚ :=
  if bits / 2 ^ fb % 2 ^ eb = 2 ^ eb - 1 then none
  else if bits / 2 ^ fb % 2 ^ eb = 0 then
    some (bitsSign fb eb bits * ((bits % 2 ^ fb : ℕ) : ℚ) *
      (2 : ℚ) ^ (1 - ((2 : ℤ) ^ (eb - 1) - 1) - (fb : ℤ)))
  else
    some (bitsSign fb eb bits * ((2 ^ fb + bits % 2 ^ fb : ℕ) : ℚ) *
      (2 : ℚ) ^ (((bits / 2 ^ fb % 2 ^ eb : ℕ) : ℤ) - ((2 : ℤ) ^ (eb - 1) - 1) - (fb : ℤ)))

/-- IEEE-754 bit pattern of a float value (`fb` fraction bits, `eb` exponent
bits).  Intended for inputs that are exactly representable and finite; the
sign of zero is not represented in `ℚ`, so `0` encodes to the `+0.0`
pattern. -/
def floatBitsOfVal (fb eb : ℕ) (q : ℚ) : ℕ :=
  if q = 0 then 0
  else if findExp |q| < 1 - ((2 : ℤ) ^ (eb - 1) - 1) then
    (if q < 0 then 1 else 0) * 2 ^ (fb + eb) +
      (pytrunc (|q| * (2 : ℚ) ^ ((2 : ℤ) ^ (eb - 1) - 2 + (fb : ℤ)))).toNat
  else
    (if q < 0 then 1 else 0) * 2 ^ (fb + eb) +
      (findExp |q| + ((2 : ℤ) ^ (eb - 1) - 1)).toNat * 2 ^ fb +
      ((pytrunc (|q| * (2 : ℚ) ^ ((fb : ℤ) - findExp |q|))).toNat - 2 ^ fb)

/-! ### 16-bit register words -/

/-- Split a nonnegative integer below `2^(16k)` into `k` big-endian 16-bit
words (how `struct.pack` + `struct.unpack(">HH…")` produces register
lists). -/
def word_split (n : ℕ) (k : ℕ) : List ℕ :=
  (List.range k).map (fun i => n / 2 ^ (16 * (k - 1 - i)) % 2 ^ 16)

/-- Reassemble big-endian 16-bit words into a nonnegative integer (how
`struct.pack(">HH…")` + `struct.unpack` consumes register lists). -/
def word_join (ws : List ℕ) : ℕ :=
  ws.foldl (fun acc w => acc * 2 ^ 16 + w) 0

/-! ### Python values -/

/-- A value of the Python type `float | int | bool` handled by the codec. -/
inductive PyValue
  | pybool (b : Bool)
  | pyint (n : ℤ)
  | pyfloat (q : ℚ)
  deriving DecidableEq

/-- Numeric content of a Python value (exact; `True == 1`, `False == 0`). -/
def pyToQ : PyValue → ℚ
  | .pybool b => if b then 1 else 0
  | .pyint n => (n : ℚ)
  | .pyfloat q => q

/-- Python truthiness of a numeric value. -/
def pyTruthy : PyValue → Bool
  | .pybool b => b
  | .pyint n => n != 0
  | .pyfloat q => q != 0

/-! ### client.py — the codec -/

/-- Model of `_reorder_registers` (client.py, lines 20-55): reorder a
register list according to the byte order; lists of length other than
2 or 4 are returned unchanged by the swap orders, and every list of
length ≤ 1 is returned unchanged immediately. -/
def reorder_registers (registers : List ℕ) (byte_order : String) : List ℕ :=
  if registers.length ≤ 1 then registers
  else if byte_order = "big" then registers
  else if byte_order = "little" then registers.reverse
  else if byte_order = "big_swap" then
    match registers with
    | [w0, w1] => [w1, w0]
    | [w0, w1, w2, w3] => [w1, w0, w3, w2]
    | regs => regs
  else if byte_order = "little_swap" then
    match registers with
    | [w0, w1] => [w1, w0]
    | [w0, w1, w2, w3] => [w3, w2, w1, w0]
    | regs => regs
  else registers

/-- The branch-on-datatype part of `decode_value` (client.py, lines 75-108),
applied to the already reordered register list `regs`.  `none` models a
raised exception: an out-of-range subscript (`IndexError`) when the list
holds fewer words than the datatype needs, a `struct.error` when a word
does not fit the `>H` format, or an unpacked infinity/NaN (outside the
rational model).  The float64 multiplications `value * scale` (with the
int operand first converted to float) are modelled by `roundF64`. -/
def decode_regs (regs : List ℕ) (datatype : String) (scale : ℚ) :
    Option PyValue :=
  if datatype = "bool" then
    match regs with
    | w :: _ => some (.pybool (w != 0))
    | [] => none
  else if datatype = "uint16" then
    match regs with
    | w :: _ => some (.pyint (pytrunc (roundF64 (roundF64 ((w : ℤ) : ℚ) * scale))))
    | [] => none
  else if datatype = "int16" then
    match regs with
    | w :: _ =>
      if w < 2 ^ 16 then
        let v : ℤ := if w < 2 ^ 15 then (w : ℤ) else (w : ℤ) - 2 ^ 16
        some (.pyint (pytrunc (roundF64 (roundF64 (v : ℚ) * scale))))
      else none
    | [] => none
  else if datatype = "uint32" then
    match regs with
    | w0 :: w1 :: _ =>
      if w0 < 2 ^ 16 ∧ w1 < 2 ^ 16 then
        some (.pyint (pytrunc (roundF64 (roundF64 ((word_join [w0, w1] : ℕ) : ℚ) * scale))))
      else none
    | _ => none
  else if datatype = "int32" then
    match regs with
    | w0 :: w1 :: _ =>
      if w0 < 2 ^ 16 ∧ w1 < 2 ^ 16 then
        let u := word_join [w0, w1]
        let v : ℤ := if u < 2 ^ 31 then (u : ℤ) else (u : ℤ) - 2 ^ 32
        some (.pyint (pytrunc (roundF64 (roundF64 (v : ℚ) * scale))))
      else none
    | _ => none
  else if datatype = "float32" then
    match regs with
    | w0 :: w1 :: _ =>
      if w0 < 2 ^ 16 ∧ w1 < 2 ^ 16 then
        match floatValOfBits 23 8 (word_join [w0, w1]) with
        | some v => some (.pyfloat (roundF64 (v * scale)))
        | none => none
      else none
    | _ => none
  else if datatype = "uint64" then
    match regs with
    | w0 :: w1 :: w2 :: w3 :: _ =>
      if w0 < 2 ^ 16 ∧ w1 < 2 ^ 16 ∧ w2 < 2 ^ 16 ∧ w3 < 2 ^ 16 then
        some (.pyint (pytrunc (roundF64 (roundF64 ((word_join [w0, w1, w2, w3] : ℕ) : ℚ) * scale))))
      else none
    | _ => none
  else if datatype = "int64" then
    match regs with
    | w0 :: w1 :: w2 :: w3 :: _ =>
      if w0 < 2 ^ 16 ∧ w1 < 2 ^ 16 ∧ w2 < 2 ^ 16 ∧ w3 < 2 ^ 16 then
        let u := word_join [w0, w1, w2, w3]
        let v : ℤ := if u < 2 ^ 63 then (u : ℤ) else (u : ℤ) - 2 ^ 64
        some (.pyint (pytrunc (roundF64 (roundF64 (v : ℚ) * scale))))
      else none
    | _ => none
  else if datatype = "float64" then
    match regs with
    | w0 :: w1 :: w2 :: w3 :: _ =>
      if w0 < 2 ^ 16 ∧ w1 < 2 ^ 16 ∧ w2 < 2 ^ 16 ∧ w3 < 2 ^ 16 then
        match floatValOfBits 52 11 (word_join [w0, w1, w2, w3]) with
        | some v => some (.pyfloat (roundF64 (v * scale)))
        | none => none
      else none
    | _ => none
  else
    match regs with
    | w :: _ => some (.pyint (w : ℤ))
    | [] => none

/-- Model of `decode_value` (client.py, lines 58-108): reorder the register
list for the byte order, then interpret it according to the datatype. -/
def decode_value (registers : List ℕ) (datatype : String) (scale : ℚ) (byte_order : String) :
    Option PyValue :=
  decode_regs (reorder_registers registers byte_order) datatype scale

/-- The first line of `encode_value` (client.py, line 125):
`scaled = value / scale if scale != 0 else value`.  The true division
converts an int operand to float (one `roundF64`) and rounds its result
(a second `roundF64`); with `scale == 0` the value passes through exactly
(it stays an `int` if it was one).  This is the numeric result of the
line when it does not raise; the `OverflowError` the int→float conversion
can raise is modelled by `scaleOverflow`. -/
def pyScaled (value : PyValue) (scale : ℚ) : ℚ :=
  if scale = 0 then pyToQ value else roundF64 (roundF64 (pyToQ value) / scale)

/-- `2^1024`, the first magnitude beyond the binary64 range: converting a
Python int to float raises `OverflowError` exactly when the correctly
rounded result reaches it. -/
def f64Overflow : ℚ :=
  ((2 ^ 1024 : ℕ) : ℚ)

/-- Whether the scaling line `scaled = value / scale` of `encode_value`
(client.py, line 125) raises: with a nonzero scale the true division first
converts an `int` operand to binary64, and CPython raises `OverflowError`
when the rounded magnitude reaches `2^1024` ("int too large to convert to
float").  A bool converts to `0.0`/`1.0` and a float is not converted, so
neither can raise here; with `scale == 0` no division is performed at
all. -/
def scaleOverflow (value : PyValue) (scale : ℚ) : Bool :=
  match value with
  | .pyint n =>
    if scale = 0 then false else decide (f64Overflow ≤ |roundF64 ((n : ℤ) : ℚ)|)
  | _ => false

/-- The scaling and branch-on-datatype part of `encode_value` (client.py,
lines 125-153), before the final reorder.  The scaling line runs before
the branch, so its `OverflowError` (see `scaleOverflow`) pre-empts every
datatype, bool included.  `none` models a raised exception: that
`OverflowError`, or a `struct.error` (packed value out of range for the
format, or a finite float too large for the `>f` format). -/
def encode_regs (value : PyValue) (datatype : String) (scale : ℚ) :
    Option (List ℕ) :=
  if scaleOverflow value scale then none
  else if datatype = "bool" then
    some [if pyTruthy value then 1 else 0]
  else if datatype = "uint16" then
    some [((pytrunc (pyScaled value scale)) % 2 ^ 16).toNat]
  else if datatype = "int16" then
    if -(2 ^ 15) ≤ pytrunc (pyScaled value scale) ∧ pytrunc (pyScaled value scale) < 2 ^ 15 then
      some [((pytrunc (pyScaled value scale)) % 2 ^ 16).toNat]
    else none
  else if datatype = "uint32" then
    if 0 ≤ pytrunc (pyScaled value scale) ∧ pytrunc (pyScaled value scale) < 2 ^ 32 then
      some (word_split (pytrunc (pyScaled value scale)).toNat 2)
    else none
  else if datatype = "int32" then
    if -(2 ^ 31) ≤ pytrunc (pyScaled value scale) ∧ pytrunc (pyScaled value scale) < 2 ^ 31 then
      some (word_split ((pytrunc (pyScaled value scale)) % 2 ^ 32).toNat 2)
    else none
  else if datatype = "float32" then
    if |roundF32 (roundF64 (pyScaled value scale))| ≤ maxF32 then
      some (word_split (floatBitsOfVal 23 8 (roundF32 (roundF64 (pyScaled value scale)))) 2)
    else none
  else if datatype = "uint64" then
    if 0 ≤ pytrunc (pyScaled value scale) ∧ pytrunc (pyScaled value scale) < 2 ^ 64 then
      some (word_split (pytrunc (pyScaled value scale)).toNat 4)
    else none
  else if datatype = "int64" then
    if -(2 ^ 63) ≤ pytrunc (pyScaled value scale) ∧ pytrunc (pyScaled value scale) < 2 ^ 63 then
      some (word_split ((pytrunc (pyScaled value scale)) % 2 ^ 64).toNat 4)
    else none
  else if datatype = "float64" then
    some (word_split (floatBitsOfVal 52 11 (roundF64 (pyScaled value scale))) 4)
  else
    some [((pytrunc (pyToQ value)) % 2 ^ 16).toNat]

/-- Model of `encode_value` (client.py, lines 111-156): scale and pack the
value into register words, then reorder them for the byte order. -/
def encode_value (value : PyValue) (datatype : String) (scale : ℚ) (byte_order : String) :
    Option (List ℕ) :=
  (encode_regs value datatype scale).map (fun regs => reorder_registers regs byte_order)

/-- Round trip at the heart of claim C1: encode a value to register words,
then decode those words with the same datatype, scale and byte order. -/
def roundtrip (value : PyValue) (datatype : String) (scale : ℚ) (byte_order : String) :
    Option PyValue :=
  (encode_value value datatype scale byte_order).bind
    (fun ws => decode_value ws datatype scale byte_order)

/-! ### register_map.py — the register catalogue -/

/-- Supported register types (register_map.py, line 36). -/
def REGISTER_TYPES : List String :=
  ["coil", "discrete_input", "input", "holding"]

/-- Supported datatypes with their register counts (register_map.py, lines 39-49). -/
def DATATYPES : List (String × ℕ) :=
  [("bool", 1), ("uint16", 1), ("int16", 1), ("uint32", 2), ("int32", 2),
   ("float32", 2), ("uint64", 4), ("int64", 4), ("float64", 4)]

/-- Supported byte orders (register_map.py, line 56). -/
def BYTE_ORDERS : List String :=
  ["big", "little", "big_swap", "little_swap"]

/-- A single Modbus register definition (the `Register` dataclass). -/
structure Register where
  address : ℤ
  name : String
  type : String
  datatype : String
  unit : String
  scale : ℚ
  byte_order : String
  description : String
  writable : Bool
  deriving DecidableEq

/-- Number of 16-bit registers the value spans (`Register.count`). -/
def Register.count (r : Register) : ℕ :=
  ((DATATYPES.lookup r.datatype).getD 1)

/-- Errors raised while building a catalogue: a `KeyError` for a missing
required document field, a `ValueError` from `Register.__post_init__` for
an enum field outside its set. -/
inductive LoadError
  | keyError (missing : String)
  | valueError (invalid : String)
  deriving DecidableEq

/-- Model of constructing a `Register`: dataclass defaults plus the
`__post_init__` validation (register_map.py, lines 59-91).  Validation
checks `type`, then `datatype`, then `byte_order`; finally input registers
and discrete inputs are forced read-only. -/
def Register.make (address : ℤ) (name : String) (type : String := "holding")
    (datatype : String := "uint16") (unit : String := "") (scale : ℚ := 1)
    (byte_order : String := "big") (description : String := "")
    (writable : Bool := true) : Except LoadError Register :=
  if type ∉ REGISTER_TYPES then .error (.valueError "type")
  else if datatype ∉ DATATYPES.map Prod.fst then .error (.valueError "datatype")
  else if byte_order ∉ BYTE_ORDERS then .error (.valueError "byte_order")
  else .ok { address, name, type, datatype, unit, scale, byte_order, description,
             writable := if type = "input" ∨ type = "discrete_input" then false else writable }

/-- One register entry of a parsed register-map document: each field is
present (`some`) or absent (`none`). -/
structure RawRegister where
  address : Option ℤ
  name : Option String
  type : Option String
  datatype : Option String
  unit : Option String
  scale : Option ℚ
  byte_order : Option String
  description : Option String
  writable : Option Bool
  deriving DecidableEq

/-- A parsed register-map document (the dictionary handed to `from_dict`). -/
structure RawDoc where
  name : Option String
  description : Option String
  events : List (String × List RawRegister)
  deriving DecidableEq

/-- Collection of register definitions organized by events (the
`RegisterMap` dataclass). -/
structure RegisterMap where
  events : List (String × List Register)
  name : String
  description : String
  deriving DecidableEq

/-- Build one `Register` from a document entry (the `Register(...)` call in
`from_dict`, register_map.py lines 136-146): `address` and `name` are
required (`reg_data["address"]` raises `KeyError`, the address lookup
happening first); every other field defaults via `.get`. -/
def regOfRaw (reg_data : RawRegister) : Except LoadError Register :=
  match reg_data.address with
  | none => .error (.keyError "address")
  | some address =>
    match reg_data.name with
    | none => .error (.keyError "name")
    | some name =>
      Register.make address name (reg_data.type.getD "holding")
        (reg_data.datatype.getD "uint16") (reg_data.unit.getD "")
        (reg_data.scale.getD 1) (reg_data.byte_order.getD "big")
        (reg_data.description.getD "") (reg_data.writable.getD true)

/-- Model of `RegisterMap.from_dict` (register_map.py, lines 121-154): build
every register of every event, propagating the first raised error. -/
def RegisterMap.from_dict (data : RawDoc) : Except LoadError RegisterMap := do
  let events ← data.events.mapM (fun ev => do
    let registers ← ev.2.mapM regOfRaw
    pure (ev.1, registers))
  pure { events := events, name := data.name.getD "modbus",
         description := data.description.getD "" }

/-- Flat list of all registers across all events (`RegisterMap.registers`). -/
def RegisterMap.registers (m : RegisterMap) : List Register :=
  (m.events.map Prod.snd).flatten

/-- Find a register by name across all events, first match in event order
(`RegisterMap.get_by_name`). -/
def RegisterMap.get_by_name (m : RegisterMap) (name : String) : Option Register :=
  m.registers.find? (fun reg => reg.name == name)

/-- Flat list of all writable registers (`RegisterMap.writable_registers`). -/
def RegisterMap.writable_registers (m : RegisterMap) : List Register :=
  m.registers.filter (fun r => r.writable)

/-! ### client.py — connection-error classifier, polling loop, write paths -/

/-- The indicator substrings of `_is_connection_error` (client.py,
lines 636-645). -/
def connection_indicators : List String :=
  ["connection", "timeout", "refused", "reset", "broken pipe", "no response",
   "disconnected", "not connected"]

/-- ASCII lowercasing of one character (`str.lower` restricted to the ASCII
messages the transport produces). -/
def lowerChar (c : Char) : Char :=
  if 'A' ≤ c ∧ c ≤ 'Z' then Char.ofNat (c.toNat + 32) else c

/-- Model of Python `str.lower()` on the (ASCII) error description. -/
def py_lower (s : String) : String :=
  String.mk (s.data.map lowerChar)

/-- Substring test on character lists (Python's `in` operator on `str`). -/
def substringOf : List Char → List Char → Bool
  | needle, [] => needle.isEmpty
  | needle, hay@(_ :: t) => needle.isPrefixOf hay || substringOf needle t

/-- Model of `ModbusClient._is_connection_error` (client.py, lines 633-646):
case-insensitive substring match of the error description against the
indicator list. -/
def is_connection_error (error_str : String) : Bool :=
  connection_indicators.any (fun ind => substringOf ind.data (py_lower error_str).data)

/-- The client state touched by one iteration of the polling loop. -/
structure ClientState where
  connected : Bool
  poll_count : ℕ
  error_count : ℕ
  deriving DecidableEq

/-- Outcome of `_poll_registers` + `_log_values` inside one loop iteration:
either they return normally or they raise an exception with the given
string description. -/
inductive PollOutcome
  | ok
  | exn (msg : String)

/-- One iteration of the polling body of `_run_async` (client.py,
lines 610-629), entered while connected: returns the updated state and
whether the iteration sleeps for `poll_interval` before the next one
(detected connection loss sets `connected := false` and skips the sleep
via `continue`). -/
def poll_iteration (s : ClientState) (outcome : PollOutcome) : ClientState × Bool :=
  match outcome with
  | .ok => ({ s with poll_count := s.poll_count + 1 }, true)
  | .exn msg =>
    let s' := { s with error_count := s.error_count + 1 }
    if is_connection_error msg then ({ s' with connected := false }, false)
    else (s', true)

/-- A write operation handed to the pymodbus transport. -/
inductive TransportCall
  | writeCoil (address : ℤ) (value : Bool)
  | writeRegister (address : ℤ) (value : ℕ)
  | writeRegisters (address : ℤ) (values : List ℕ)
  deriving DecidableEq

/-- Observable behaviour of `write_register_value` up to the transport
boundary: the `rejectedNotWritable` and `raisesEncodeError` outcomes issue
no transport call at all. -/
inductive WriteBehavior
  | rejectedNotWritable
  | raisesEncodeError
  | callsTransport (call : TransportCall)
  deriving DecidableEq

/-- Model of `ModbusClient.write_register_value` (client.py, lines 501-523):
a non-writable register is rejected before anything else; coils go through
the boolean write; otherwise the encoded words go through the single- or
multi-register write depending on their number. -/
def write_register_value (register : Register) (value : PyValue) : WriteBehavior :=
  if !register.writable then .rejectedNotWritable
  else if register.type = "coil" then
    .callsTransport (.writeCoil register.address (pyTruthy value))
  else
    match encode_value value register.datatype register.scale register.byte_order with
    | none => .raisesEncodeError
    | some raw =>
      match raw with
      | [w] => .callsTransport (.writeRegister register.address w)
      | _ => .callsTransport (.writeRegisters register.address raw)

/-- An ASCII apostrophe (used in the error strings of the named actions). -/
def sq : String := String.singleton (Char.ofNat 39)

/-- Result of the `write_named_register` action: the error dictionaries it
returns, or the write it proceeds to issue.  The first three outcomes
issue no transport call. -/
inductive NamedWriteOutcome
  | noRegisterMap (error : String)
  | notFound (error : String)
  | notWritable (error : String)
  | proceeds (behavior : WriteBehavior)
  deriving DecidableEq

/-- Model of `ModbusClient.write_named_register` (client.py, lines 764-793):
resolve the name in the register map, reject unknown names and
non-writable registers with their distinct error strings, and otherwise
hand over to `write_register_value`. -/
def write_named_register (register_map : Option RegisterMap) (name : String) (value : ℚ) :
    NamedWriteOutcome :=
  match register_map with
  | none => .noRegisterMap "No register map loaded"
  | some m =>
    match m.get_by_name name with
    | none => .notFound ("Register " ++ sq ++ name ++ sq ++ " not found")
    | some reg =>
      if !reg.writable then
        .notWritable ("Register " ++ sq ++ name ++ sq ++ " is not writable (type: "
          ++ reg.type ++ ")")
      else .proceeds (write_register_value reg (.pyfloat value))

/-- Modelled from the spec: the seven indicator substrings that the
specification lists for the connection-loss heuristic ("timeout, refused,
reset, broken pipe, no response, disconnected, not-connected").  Compare
with `connection_indicators`, taken from the source, which has an eighth
entry `"connection"`. -/
def claimed_indicators : List String :=
  ["timeout", "refused", "reset", "broken pipe", "no response",
   "disconnected", "not connected"]

/-- A register-map document whose single register is a holding register
explicitly declared non-writable (input for the counterexample to C4). -/
def holdingNotWritableDoc : RawDoc :=
  ⟨none, none,
   [("g", [⟨some 1, some "r1", some "holding", none, none, none, none, none, some false⟩])]⟩

/-- A register-map document whose single register is an input register
with all optional fields left to their defaults. -/
def inputRegisterDoc : RawDoc :=
  ⟨none, none,
   [("g", [⟨some 1, some "r1", some "input", none, none, none, none, none, none⟩])]⟩

/-- The catalogue built from `inputRegisterDoc`. -/
def inputRegisterMap : RegisterMap :=
  ⟨[("g", [⟨1, "r1", "input", "uint16", "", 1, "big", "", false⟩])], "modbus", ""⟩

/-- A catalogue holding one read-only input register named `sensor`
(input for the witness of C6). -/
def sensorMap : RegisterMap :=
  ⟨[("g", [⟨3, "sensor", "input", "uint16", "", 1, "big", "", false⟩])], "modbus", ""⟩

end Modbus

namespace Modbus

/-! ### Helper lemmas: truncation and rounding on integers -/

theorem qfloor_intCast (z : ℤ) : qfloor ((z : ℤ) : ℚ) = z := by
  simp [qfloor, Rat.num_intCast, Rat.den_intCast]

theorem pytrunc_intCast (z : ℤ) : pytrunc ((z : ℤ) : ℚ) = z := by
  simp [pytrunc, Rat.num_intCast, Rat.den_intCast]

theorem pytrunc_eq_of_eq_intCast {q : ℚ} {z : ℤ} (h : q = (z : ℚ)) : pytrunc q = z := by
  rw [h, pytrunc_intCast]

theorem roundHalfEven_intCast (z : ℤ) : roundHalfEven ((z : ℤ) : ℚ) = z := by
  simp [roundHalfEven, qfloor_intCast]

/-! ### Helper lemmas: binary logarithm and exponent extraction -/

theorem log2F_spec : ∀ f n : ℕ, 1 ≤ n → n ≤ f → 2 ^ log2F f n ≤ n ∧ n < 2 ^ (log2F f n + 1) := by
  intro f
  induction f with
  | zero => intro n h1 h2; omega
  | succ f ih =>
    intro n h1 h2
    by_cases h : n ≤ 1
    · have hn : n = 1 := by omega
      subst hn
      simp [log2F]
    · rw [log2F, if_neg h]
      obtain ⟨ha, hb⟩ := ih (n / 2) (by omega) (by omega)
      simp only [pow_succ] at hb ⊢
      omega

theorem nlog2_spec (n : ℕ) (h : 1 ≤ n) : 2 ^ nlog2 n ≤ n ∧ n < 2 ^ (nlog2 n + 1) :=
  log2F_spec n n h le_rfl

theorem findExp_spec (q : ℚ) (hq : 0 < q) :
    (2 : ℚ) ^ findExp q ≤ q ∧ q < (2 : ℚ) ^ (findExp q + 1) := by
  have hq' : ¬ q ≤ 0 := not_le.mpr hq
  have hnum : 0 < q.num := Rat.num_pos.mpr hq
  have hden : 0 < (q.den : ℚ) := by exact_mod_cast q.den_pos
  obtain ⟨ha1, ha2⟩ := nlog2_spec q.num.toNat (by omega)
  obtain ⟨hb1, hb2⟩ := nlog2_spec q.den q.den_pos
  set la := nlog2 q.num.toNat with hla
  set lb := nlog2 q.den with hlb
  have hcast : ((q.num.toNat : ℕ) : ℚ) = (q.num : ℚ) := by
    exact_mod_cast Int.toNat_of_nonneg (le_of_lt hnum)
  have hN1 : (2 : ℚ) ^ (la : ℤ) ≤ (q.num : ℚ) := by
    rw [zpow_natCast, ← hcast]
    exact_mod_cast ha1
  have hN2 : (q.num : ℚ) < (2 : ℚ) ^ ((la : ℤ) + 1) := by
    have h : ((la : ℤ) + 1) = ((la + 1 : ℕ) : ℤ) := by push_cast; ring
    rw [h, zpow_natCast, ← hcast]
    exact_mod_cast ha2
  have hD1 : (2 : ℚ) ^ (lb : ℤ) ≤ (q.den : ℚ) := by
    rw [zpow_natCast]; exact_mod_cast hb1
  have hD2 : (q.den : ℚ) < (2 : ℚ) ^ ((lb : ℤ) + 1) := by
    have h : ((lb : ℤ) + 1) = ((lb + 1 : ℕ) : ℤ) := by push_cast; ring
    rw [h, zpow_natCast]; exact_mod_cast hb2
  have hqe : q = (q.num : ℚ) / (q.den : ℚ) := (Rat.num_div_den q).symm
  have hupper : q < (2 : ℚ) ^ ((la : ℤ) - lb + 1) := by
    rw [hqe, div_lt_iff₀ hden]
    calc (q.num : ℚ) < (2 : ℚ) ^ ((la : ℤ) + 1) := hN2
    _ = (2 : ℚ) ^ ((la : ℤ) - lb + 1) * (2 : ℚ) ^ (lb : ℤ) := by
        rw [← zpow_add₀ (two_ne_zero)]; ring_nf
    _ ≤ (2 : ℚ) ^ ((la : ℤ) - lb + 1) * (q.den : ℚ) :=
        mul_le_mul_of_nonneg_left hD1 (le_of_lt (zpow_pos (by norm_num) _))
  have hlower : (2 : ℚ) ^ ((la : ℤ) - lb - 1) < q := by
    rw [hqe, lt_div_iff₀ hden]
    calc (2 : ℚ) ^ ((la : ℤ) - lb - 1) * (q.den : ℚ)
        < (2 : ℚ) ^ ((la : ℤ) - lb - 1) * (2 : ℚ) ^ ((lb : ℤ) + 1) :=
        mul_lt_mul_of_pos_left hD2 (zpow_pos (by norm_num) _)
    _ = (2 : ℚ) ^ (la : ℤ) := by rw [← zpow_add₀ (two_ne_zero)]; ring_nf
    _ ≤ (q.num : ℚ) := hN1
  unfold findExp
  rw [if_neg hq']
  by_cases hcase : q < (2 : ℚ) ^ ((la : ℤ) - lb)
  · rw [if_pos hcase]
    refine ⟨le_of_lt hlower, ?_⟩
    have h : ((la : ℤ) - lb - 1) + 1 = (la : ℤ) - lb := by ring
    rw [h]; exact hcase
  · rw [if_neg hcase]
    exact ⟨not_lt.mp hcase, hupper⟩

/-! ### Helper lemmas: exact representability and rounding fixed points -/

theorem FloatRep.mono {p p' : ℕ} {smin smin' : ℤ} {q : ℚ} (hp : p ≤ p') (hs : smin' ≤ smin)
    (h : FloatRep p smin q) : FloatRep p' smin' q := by
  obtain ⟨m, t, hq, hm, ht⟩ := h
  exact ⟨m, t, hq, lt_of_lt_of_le hm (Nat.pow_le_pow_right (by norm_num) hp), le_trans hs ht⟩

theorem FloatRep.intCast {p : ℕ} {smin : ℤ} (n : ℤ) (hn : n.natAbs < 2 ^ p) (hs : smin ≤ 0) :
    FloatRep p smin ((n : ℤ) : ℚ) :=
  ⟨n, 0, by simp, hn, hs⟩

theorem FloatRep.abs_lt {p : ℕ} {q : ℚ} {m t : ℤ}
    (hrep : q = (m : ℚ) * (2 : ℚ) ^ t) (hm : m.natAbs < 2 ^ p) :
    |q| < (2 : ℚ) ^ ((p : ℤ) + t) := by
  have h1 : |(m : ℚ)| < (2 : ℚ) ^ (p : ℤ) := by
    rw [zpow_natCast, ← Int.cast_abs, Int.abs_eq_natAbs]
    exact_mod_cast hm
  calc |q| = |(m : ℚ)| * (2 : ℚ) ^ t := by
        rw [hrep, abs_mul, abs_of_pos (zpow_pos (by norm_num : (0:ℚ) < 2) t)]
  _ < (2 : ℚ) ^ (p : ℤ) * (2 : ℚ) ^ t :=
        mul_lt_mul_of_pos_right h1 (zpow_pos (by norm_num) _)
  _ = (2 : ℚ) ^ ((p : ℤ) + t) := (zpow_add₀ two_ne_zero _ _).symm

theorem FloatRep.roundFloat_eq {p : ℕ} {smin : ℤ} {q : ℚ}
    (h : FloatRep p smin q) : roundFloat p smin q = q := by
  by_cases h0 : q = 0
  · rw [roundFloat, if_pos h0, h0]
  · obtain ⟨m, t, hrep, hm, ht⟩ := h
    have habs : 0 < |q| := abs_pos.mpr h0
    have habs_lt : |q| < (2 : ℚ) ^ ((p : ℤ) + t) := FloatRep.abs_lt hrep hm
    have he : findExp |q| < (p : ℤ) + t := by
      have h1 := (findExp_spec |q| habs).1
      exact (zpow_lt_zpow_iff_right₀ (by norm_num : (1:ℚ) < 2)).mp (lt_of_le_of_lt h1 habs_lt)
    have hst : roundScale p smin q ≤ t := by
      unfold roundScale
      apply max_le _ ht
      omega
    unfold roundFloat
    rw [if_neg h0]
    set s := roundScale p smin q with hs
    have hts : 0 ≤ t - s := by omega
    have h2 : ((m * 2 ^ (t - s).toNat : ℤ) : ℚ) = (m : ℚ) * (2 : ℚ) ^ (t - s) := by
      push_cast
      rw [← zpow_natCast (2 : ℚ) (t - s).toNat, Int.toNat_of_nonneg hts]
    have hdiv : q / (2 : ℚ) ^ s = ((m * 2 ^ (t - s).toNat : ℤ) : ℚ) := by
      rw [h2, hrep, mul_div_assoc, ← zpow_sub₀ two_ne_zero]
    have h3 : t - s + s = t := by ring
    rw [hdiv, roundHalfEven_intCast, h2, mul_assoc, ← zpow_add₀ two_ne_zero, h3, hrep]

theorem roundF64_intCast {n : ℤ} (hn : n.natAbs < 2 ^ 53) : roundF64 ((n : ℤ) : ℚ) = (n : ℚ) :=
  FloatRep.roundFloat_eq (FloatRep.intCast n hn (by norm_num))

theorem roundF64_of_rep {q : ℚ} (h : FloatRep 53 (-1074) q) : roundF64 q = q :=
  FloatRep.roundFloat_eq h

theorem roundF32_of_rep {q : ℚ} (h : FloatRep 24 (-149) q) : roundF32 q = q :=
  FloatRep.roundFloat_eq h

/-! ### Helper lemmas: the scaling line's overflow -/

theorem f64Overflow_eq : f64Overflow = (2 : ℚ) ^ (1024 : ℕ) := by
  rw [f64Overflow]
  push_cast
  rfl

theorem scaleOverflow_pyfloat (q : ℚ) (s : ℚ) :
    scaleOverflow (.pyfloat q) s = false := rfl

theorem scaleOverflow_of_rep {n : ℤ} (s : ℚ) (hrep : FloatRep 53 (-1074) ((n : ℤ) : ℚ))
    (hn : n.natAbs < 2 ^ 64) : scaleOverflow (.pyint n) s = false := by
  unfold scaleOverflow
  show (if s = 0 then false else decide (f64Overflow ≤ |roundF64 ((n : ℤ) : ℚ)|)) = false
  split
  · rfl
  · refine decide_eq_false ?_
    rw [not_le, roundF64_of_rep hrep, f64Overflow_eq]
    have habs : |((n : ℤ) : ℚ)| = ((n.natAbs : ℕ) : ℚ) := by
      rw [Int.cast_natAbs, Int.cast_abs]
    rw [habs]
    calc ((n.natAbs : ℕ) : ℚ) < ((2 ^ 64 : ℕ) : ℚ) := by exact_mod_cast hn
    _ ≤ (2 : ℚ) ^ (1024 : ℕ) := by
        rw [Nat.cast_pow, Nat.cast_ofNat]
        exact pow_le_pow_right₀ (by norm_num) (by norm_num)

/-! ### Helper lemmas: word splitting and joining -/

theorem word_split_two (n : ℕ) :
    word_split n 2 = [n / 2 ^ 16 % 2 ^ 16, n % 2 ^ 16] := by
  simp [word_split, List.range_succ]

theorem word_split_four (n : ℕ) :
    word_split n 4 = [n / 2 ^ 48 % 2 ^ 16, n / 2 ^ 32 % 2 ^ 16, n / 2 ^ 16 % 2 ^ 16,
      n % 2 ^ 16] := by
  simp [word_split, List.range_succ]

theorem word_join_two (a b : ℕ) : word_join [a, b] = a * 2 ^ 16 + b := by
  simp [word_join]

theorem word_join_four (a b c d : ℕ) :
    word_join [a, b, c, d] = ((a * 2 ^ 16 + b) * 2 ^ 16 + c) * 2 ^ 16 + d := by
  simp [word_join]

theorem word_join_word_split_two {n : ℕ} (h : n < 2 ^ 32) :
    word_join (word_split n 2) = n := by
  rw [word_split_two, word_join_two]
  omega

theorem word_join_word_split_four {n : ℕ} (h : n < 2 ^ 64) :
    word_join (word_split n 4) = n := by
  rw [word_split_four, word_join_four]
  omega

/-! ### Helper lemmas: register reordering -/

theorem reorder_registers_singleton (w : ℕ) (o : String) :
    reorder_registers [w] o = [w] := by
  simp [reorder_registers]

theorem mem_BYTE_ORDERS {o : String} (ho : o ∈ BYTE_ORDERS) :
    o = "big" ∨ o = "little" ∨ o = "big_swap" ∨ o = "little_swap" := by
  simpa [BYTE_ORDERS] using ho

theorem length_eq_two {α : Type} {l : List α} (h : l.length = 2) :
    ∃ a b, l = [a, b] := by
  obtain ⟨a, t, rfl⟩ := List.exists_of_length_succ l (show l.length = 1 + 1 from by omega)
  have ht : t.length = 1 := by simp at h; omega
  obtain ⟨b, rfl⟩ := List.length_eq_one.mp ht
  exact ⟨a, b, rfl⟩

theorem length_eq_four {α : Type} {l : List α} (h : l.length = 4) :
    ∃ a b c d, l = [a, b, c, d] := by
  obtain ⟨a, t, rfl⟩ := List.exists_of_length_succ l (show l.length = 3 + 1 from by omega)
  obtain ⟨b, u, rfl⟩ := List.exists_of_length_succ t
    (show t.length = 2 + 1 from by simp at h; omega)
  obtain ⟨c, d, rfl⟩ := length_eq_two (show u.length = 2 from by simp at h; omega)
  exact ⟨a, b, c, d, rfl⟩

theorem reorder_registers_involution {o : String} (ho : o ∈ BYTE_ORDERS) (l : List ℕ)
    (hl : l.length = 1 ∨ l.length = 2 ∨ l.length = 4) :
    reorder_registers (reorder_registers l o) o = l := by
  rcases hl with h | h | h
  · obtain ⟨a, rfl⟩ := List.length_eq_one.mp h
    rw [reorder_registers_singleton, reorder_registers_singleton]
  · obtain ⟨a, b, rfl⟩ := length_eq_two h
    rcases mem_BYTE_ORDERS ho with rfl | rfl | rfl | rfl <;> rfl
  · obtain ⟨a, b, c, d, rfl⟩ := length_eq_four h
    rcases mem_BYTE_ORDERS ho with rfl | rfl | rfl | rfl <;> rfl

theorem reorder_registers_perm {o : String} (ho : o ∈ BYTE_ORDERS) (l : List ℕ)
    (hl : l.length = 1 ∨ l.length = 2 ∨ l.length = 4) :
    (reorder_registers l o).Perm l := by
  rcases hl with h | h | h
  · obtain ⟨a, rfl⟩ := List.length_eq_one.mp h
    rw [reorder_registers_singleton]
  · obtain ⟨a, b, rfl⟩ := length_eq_two h
    rcases mem_BYTE_ORDERS ho with rfl | rfl | rfl | rfl
    · rfl
    all_goals exact (List.Perm.swap a b [])
  · obtain ⟨a, b, c, d, rfl⟩ := length_eq_four h
    rcases mem_BYTE_ORDERS ho with rfl | rfl | rfl | rfl
    · rfl
    · exact List.reverse_perm [a, b, c, d]
    · exact List.Perm.append (List.Perm.swap a b []) (List.Perm.swap c d [])
    · exact List.reverse_perm [a, b, c, d]

/-! ### Claim C2 -/

/-- C2: the word-reorder function implements exactly the fixed permutation
table: for a 2-word list `[w0, w1]`, `big` is the identity and `little`,
`big_swap` and `little_swap` each yield `[w1, w0]`; for a 4-word list
`[w0, w1, w2, w3]`, `big` is the identity, `little` yields
`[w3, w2, w1, w0]`, `big_swap` yields `[w1, w0, w3, w2]`, and `little_swap`
yields `[w3, w2, w1, w0]`; a 1-word list is unchanged for every byte
order. -/
theorem C2_reorder_permutation_table :
    (∀ w0 w1 : ℕ,
      reorder_registers [w0, w1] "big" = [w0, w1] ∧
      reorder_registers [w0, w1] "little" = [w1, w0] ∧
      reorder_registers [w0, w1] "big_swap" = [w1, w0] ∧
      reorder_registers [w0, w1] "little_swap" = [w1, w0]) ∧
    (∀ w0 w1 w2 w3 : ℕ,
      reorder_registers [w0, w1, w2, w3] "big" = [w0, w1, w2, w3] ∧
      reorder_registers [w0, w1, w2, w3] "little" = [w3, w2, w1, w0] ∧
      reorder_registers [w0, w1, w2, w3] "big_swap" = [w1, w0, w3, w2] ∧
      reorder_registers [w0, w1, w2, w3] "little_swap" = [w3, w2, w1, w0]) ∧
    (∀ w : ℕ, ∀ o ∈ BYTE_ORDERS, reorder_registers [w] o = [w]) :=
  ⟨fun _ _ => ⟨rfl, rfl, rfl, rfl⟩,
   fun _ _ _ _ => ⟨rfl, rfl, rfl, rfl⟩,
   fun w o _ => reorder_registers_singleton w o⟩

/-- Witness for C2 at a concrete input. -/
theorem C2_witness : reorder_registers [7] "little_swap" = [7] :=
  C2_reorder_permutation_table.2.2 7 "little_swap" (by decide)

/-! ### Claim C9 -/

/-- C9: for every word list of length 1, 2 or 4 and every byte order in
the enumerated set, the word-reorder function returns a permutation of its
input (same length, same multiset of words), and applying it twice with
the same byte order returns the original list — every permutation in the
table is self-inverse, which is why the same function serves both the
encode and the decode direction. -/
theorem C9_reorder_self_inverse_permutation {o : String} (ho : o ∈ BYTE_ORDERS)
    (l : List ℕ) (hl : l.length = 1 ∨ l.length = 2 ∨ l.length = 4) :
    (reorder_registers l o).length = l.length ∧
    (reorder_registers l o).Perm l ∧
    reorder_registers (reorder_registers l o) o = l :=
  ⟨(reorder_registers_perm ho l hl).length_eq,
   reorder_registers_perm ho l hl,
   reorder_registers_involution ho l hl⟩

/-- Witness for C9 at a concrete input. -/
theorem C9_witness :
    (reorder_registers [1, 2, 3, 4] "big_swap").length = 4 ∧
    (reorder_registers [1, 2, 3, 4] "big_swap").Perm [1, 2, 3, 4] ∧
    reorder_registers (reorder_registers [1, 2, 3, 4] "big_swap") "big_swap" = [1, 2, 3, 4] :=
  C9_reorder_self_inverse_permutation (by decide) [1, 2, 3, 4] (by decide)

/-! ### Claim C10 -/

theorem scaleOverflow_pow1024 (s : ℚ) (hs : s ≠ 0) :
    scaleOverflow (.pyint ((2 ^ 256) ^ 4)) s = true := by
  unfold scaleOverflow
  show (if s = 0 then false
    else decide (f64Overflow ≤ |roundF64 (((((2 : ℤ) ^ 256) ^ 4 : ℤ)) : ℚ)|)) = true
  rw [if_neg hs]
  refine decide_eq_true ?_
  have hcast : (((((2 : ℤ) ^ 256) ^ 4 : ℤ)) : ℚ) = (2 : ℚ) ^ (1024 : ℕ) := by
    rw [Int.cast_pow, Int.cast_pow, ← pow_mul]
    norm_num
  have hrep : FloatRep 53 (-1074) ((2 : ℚ) ^ (1024 : ℕ)) :=
    ⟨1, ((1024 : ℕ) : ℤ), by rw [Int.cast_one, one_mul, zpow_natCast], by norm_num,
     by norm_num⟩
  rw [hcast, roundF64_of_rep hrep, abs_of_nonneg (by positivity), f64Overflow_eq]

/-- Counterexample to C10 as claimed: encoding with datatype bool does not
ignore the scale parameter entirely.  The scaling line
`scaled = value / scale` runs before the datatype branch, so for the
truthy int `2^1024` (written `(2^256)^4`) encoding raises `OverflowError`
at scale 1 — the int→float conversion inside the division overflows —
while at scale 0, where no division is performed, it returns `[1]`. -/
theorem C10_counterexample :
    encode_value (.pyint ((2 ^ 256) ^ 4)) "bool" 1 "big" = none ∧
    encode_value (.pyint ((2 ^ 256) ^ 4)) "bool" 0 "big" = some [1] ∧
    pyTruthy (.pyint ((2 ^ 256) ^ 4)) = true := by
  refine ⟨?_, ?_, ?_⟩
  · have hov : scaleOverflow (.pyint ((2 ^ 256) ^ 4)) 1 = true :=
      scaleOverflow_pow1024 1 one_ne_zero
    have henc : encode_regs (.pyint ((2 ^ 256) ^ 4)) "bool" 1 = none := by
      unfold encode_regs
      rw [hov]
      rfl
    unfold encode_value
    rw [henc]
    rfl
  · with_unfolding_all rfl
  · with_unfolding_all rfl

/-- C10 (amended): decoding with datatype bool ignores scale entirely
(nonzero test on the first word), and encoding with datatype bool ignores
scale except through the scaling line itself: `scaled = value / scale`
runs before the datatype branch, so when the int→float conversion inside
it overflows (an int of rounded magnitude at least `2^1024`, with nonzero
scale) `encode_value` raises instead of returning — whereas whenever that
line does not raise, the encoding is `[1]` for a truthy value and `[0]`
otherwise whatever the scale, and bool values round-trip across any pair
of scales. -/
theorem C10_bool_scale_dependence (v : PyValue) (scale scale' : ℚ) (o : String)
    (regs : List ℕ) :
    (scaleOverflow v scale = false →
      encode_value v "bool" scale o = some [if pyTruthy v then 1 else 0]) ∧
    (decode_value regs "bool" scale o = decode_value regs "bool" scale' o) ∧
    (scaleOverflow v scale = true → encode_value v "bool" scale o = none) ∧
    (scaleOverflow v scale = false →
      (encode_value v "bool" scale o).bind (fun ws => decode_value ws "bool" scale' o) =
        some (.pybool (pyTruthy v))) := by
  have h1 : scaleOverflow v scale = false →
      encode_value v "bool" scale o = some [if pyTruthy v then 1 else 0] := by
    intro hov
    have henc : encode_regs v "bool" scale = some [if pyTruthy v then 1 else 0] := by
      unfold encode_regs
      rw [hov]
      rfl
    unfold encode_value
    rw [henc]
    show some (reorder_registers [if pyTruthy v then 1 else 0] o) = _
    rw [reorder_registers_singleton]
  refine ⟨h1, rfl, ?_, ?_⟩
  · intro hov
    have henc : encode_regs v "bool" scale = none := by
      unfold encode_regs
      rw [hov]
      rfl
    unfold encode_value
    rw [henc]
    rfl
  · intro hov
    rw [h1 hov]
    show decode_regs (reorder_registers [if pyTruthy v then 1 else 0] o) "bool" scale' = _
    rw [reorder_registers_singleton]
    cases hb : pyTruthy v <;> rfl

/-- Witness for C10 at a concrete input: the truthy int 3 with scale 2
encodes to `[1]` and round-trips against the different scale 5. -/
theorem C10_witness :
    encode_value (.pyint 3) "bool" 2 "big" = some [1] ∧
    (encode_value (.pyint 3) "bool" 2 "big").bind
        (fun ws => decode_value ws "bool" 5 "big") = some (.pybool true) := by
  have hov : scaleOverflow (.pyint 3) 2 = false := by with_unfolding_all rfl
  exact ⟨(C10_bool_scale_dependence (.pyint 3) 2 5 "big" []).1 hov,
         (C10_bool_scale_dependence (.pyint 3) 2 5 "big" []).2.2.2 hov⟩

/-! ### Unfolding equations of the codec branches (all definitional) -/

theorem word_split_length (n k : ℕ) : (word_split n k).length = k := by
  simp [word_split]

theorem encode_regs_uint16 (v : PyValue) (scale : ℚ)
    (hov : scaleOverflow v scale = false) :
    encode_regs v "uint16" scale =
      some [((pytrunc (pyScaled v scale)) % 2 ^ 16).toNat] := by
  unfold encode_regs
  rw [hov]
  rfl

theorem encode_regs_int16 (v : PyValue) (scale : ℚ)
    (hov : scaleOverflow v scale = false) :
    encode_regs v "int16" scale =
      if -(2 ^ 15) ≤ pytrunc (pyScaled v scale) ∧ pytrunc (pyScaled v scale) < 2 ^ 15 then
        some [((pytrunc (pyScaled v scale)) % 2 ^ 16).toNat]
      else none := by
  unfold encode_regs
  rw [hov]
  rfl

theorem encode_regs_uint32 (v : PyValue) (scale : ℚ)
    (hov : scaleOverflow v scale = false) :
    encode_regs v "uint32" scale =
      if 0 ≤ pytrunc (pyScaled v scale) ∧ pytrunc (pyScaled v scale) < 2 ^ 32 then
        some (word_split (pytrunc (pyScaled v scale)).toNat 2)
      else none := by
  unfold encode_regs
  rw [hov]
  rfl

theorem encode_regs_int32 (v : PyValue) (scale : ℚ)
    (hov : scaleOverflow v scale = false) :
    encode_regs v "int32" scale =
      if -(2 ^ 31) ≤ pytrunc (pyScaled v scale) ∧ pytrunc (pyScaled v scale) < 2 ^ 31 then
        some (word_split ((pytrunc (pyScaled v scale)) % 2 ^ 32).toNat 2)
      else none := by
  unfold encode_regs
  rw [hov]
  rfl

theorem encode_regs_float32 (v : PyValue) (scale : ℚ)
    (hov : scaleOverflow v scale = false) :
    encode_regs v "float32" scale =
      if |roundF32 (roundF64 (pyScaled v scale))| ≤ maxF32 then
        some (word_split (floatBitsOfVal 23 8 (roundF32 (roundF64 (pyScaled v scale)))) 2)
      else none := by
  unfold encode_regs
  rw [hov]
  rfl

theorem encode_regs_uint64 (v : PyValue) (scale : ℚ)
    (hov : scaleOverflow v scale = false) :
    encode_regs v "uint64" scale =
      if 0 ≤ pytrunc (pyScaled v scale) ∧ pytrunc (pyScaled v scale) < 2 ^ 64 then
        some (word_split (pytrunc (pyScaled v scale)).toNat 4)
      else none := by
  unfold encode_regs
  rw [hov]
  rfl

theorem encode_regs_int64 (v : PyValue) (scale : ℚ)
    (hov : scaleOverflow v scale = false) :
    encode_regs v "int64" scale =
      if -(2 ^ 63) ≤ pytrunc (pyScaled v scale) ∧ pytrunc (pyScaled v scale) < 2 ^ 63 then
        some (word_split ((pytrunc (pyScaled v scale)) % 2 ^ 64).toNat 4)
      else none := by
  unfold encode_regs
  rw [hov]
  rfl

theorem encode_regs_float64 (v : PyValue) (scale : ℚ)
    (hov : scaleOverflow v scale = false) :
    encode_regs v "float64" scale =
      some (word_split (floatBitsOfVal 52 11 (roundF64 (pyScaled v scale))) 4) := by
  unfold encode_regs
  rw [hov]
  rfl

theorem decode_regs_uint16 (w : ℕ) (rest : List ℕ) (scale : ℚ) :
    decode_regs (w :: rest) "uint16" scale =
      some (.pyint (pytrunc (roundF64 (roundF64 ((w : ℤ) : ℚ) * scale)))) := rfl

theorem decode_regs_int16 (w : ℕ) (rest : List ℕ) (scale : ℚ) :
    decode_regs (w :: rest) "int16" scale =
      if w < 2 ^ 16 then
        some (.pyint (pytrunc (roundF64 (roundF64
          ((if w < 2 ^ 15 then (w : ℤ) else (w : ℤ) - 2 ^ 16 : ℤ) : ℚ) * scale))))
      else none := rfl

theorem decode_regs_uint32 (w0 w1 : ℕ) (rest : List ℕ) (scale : ℚ) :
    decode_regs (w0 :: w1 :: rest) "uint32" scale =
      if w0 < 2 ^ 16 ∧ w1 < 2 ^ 16 then
        some (.pyint (pytrunc (roundF64 (roundF64 ((word_join [w0, w1] : ℕ) : ℚ) * scale))))
      else none := rfl

theorem decode_regs_int32 (w0 w1 : ℕ) (rest : List ℕ) (scale : ℚ) :
    decode_regs (w0 :: w1 :: rest) "int32" scale =
      if w0 < 2 ^ 16 ∧ w1 < 2 ^ 16 then
        some (.pyint (pytrunc (roundF64 (roundF64
          ((if word_join [w0, w1] < 2 ^ 31 then (word_join [w0, w1] : ℤ)
            else (word_join [w0, w1] : ℤ) - 2 ^ 32 : ℤ) : ℚ) * scale))))
      else none := rfl

theorem decode_regs_float32 (w0 w1 : ℕ) (rest : List ℕ) (scale : ℚ) :
    decode_regs (w0 :: w1 :: rest) "float32" scale =
      if w0 < 2 ^ 16 ∧ w1 < 2 ^ 16 then
        match floatValOfBits 23 8 (word_join [w0, w1]) with
        | some v => some (.pyfloat (roundF64 (v * scale)))
        | none => none
      else none := rfl

theorem decode_regs_uint64 (w0 w1 w2 w3 : ℕ) (rest : List ℕ) (scale : ℚ) :
    decode_regs (w0 :: w1 :: w2 :: w3 :: rest) "uint64" scale =
      if w0 < 2 ^ 16 ∧ w1 < 2 ^ 16 ∧ w2 < 2 ^ 16 ∧ w3 < 2 ^ 16 then
        some (.pyint (pytrunc (roundF64 (roundF64
          ((word_join [w0, w1, w2, w3] : ℕ) : ℚ) * scale))))
      else none := rfl

theorem decode_regs_int64 (w0 w1 w2 w3 : ℕ) (rest : List ℕ) (scale : ℚ) :
    decode_regs (w0 :: w1 :: w2 :: w3 :: rest) "int64" scale =
      if w0 < 2 ^ 16 ∧ w1 < 2 ^ 16 ∧ w2 < 2 ^ 16 ∧ w3 < 2 ^ 16 then
        some (.pyint (pytrunc (roundF64 (roundF64
          ((if word_join [w0, w1, w2, w3] < 2 ^ 63 then (word_join [w0, w1, w2, w3] : ℤ)
            else (word_join [w0, w1, w2, w3] : ℤ) - 2 ^ 64 : ℤ) : ℚ) * scale))))
      else none := rfl

theorem decode_regs_float64 (w0 w1 w2 w3 : ℕ) (rest : List ℕ) (scale : ℚ) :
    decode_regs (w0 :: w1 :: w2 :: w3 :: rest) "float64" scale =
      if w0 < 2 ^ 16 ∧ w1 < 2 ^ 16 ∧ w2 < 2 ^ 16 ∧ w3 < 2 ^ 16 then
        match floatValOfBits 52 11 (word_join [w0, w1, w2, w3]) with
        | some v => some (.pyfloat (roundF64 (v * scale)))
        | none => none
      else none := rfl

/-! ### Round-trip plumbing -/

theorem roundtrip_decode {v : PyValue} {dt : String} {scale : ℚ} {o : String}
    (ho : o ∈ BYTE_ORDERS) {ws : List ℕ}
    (henc : encode_regs v dt scale = some ws)
    (hlen : ws.length = 1 ∨ ws.length = 2 ∨ ws.length = 4) :
    roundtrip v dt scale o = decode_regs ws dt scale := by
  unfold roundtrip encode_value decode_value
  rw [henc]
  show decode_regs (reorder_registers (reorder_registers ws o) o) dt scale = _
  rw [reorder_registers_involution ho ws hlen]

theorem pyScaled_one_of_rep {v : PyValue} (h : FloatRep 53 (-1074) (pyToQ v)) :
    pyScaled v 1 = pyToQ v := by
  unfold pyScaled
  rw [if_neg one_ne_zero, div_one, roundF64_of_rep h, roundF64_of_rep h]

theorem pyScaled_pyint_one {n : ℤ} (hn : n.natAbs < 2 ^ 53) :
    pyScaled (.pyint n) 1 = ((n : ℤ) : ℚ) :=
  pyScaled_one_of_rep (FloatRep.intCast n hn (by norm_num))

theorem natCast_eq_intCast (k : ℕ) : ((k : ℕ) : ℚ) = ((k : ℤ) : ℚ) := by
  push_cast
  rfl

theorem int_pow16 : (2 : ℤ) ^ 16 = 65536 := by norm_num

theorem int_pow32 : (2 : ℤ) ^ 32 = 4294967296 := by norm_num

theorem int_pow64 : (2 : ℤ) ^ 64 = 18446744073709551616 := by norm_num

/-! ### Round-trip lemmas per datatype, at the default scale 1 -/

theorem roundtrip_bool {o : String} (ho : o ∈ BYTE_ORDERS) (b : Bool) :
    roundtrip (.pybool b) "bool" 1 o = some (.pybool b) := by
  have henc : encode_regs (.pybool b) "bool" 1 = some [if b then 1 else 0] := rfl
  rw [roundtrip_decode ho henc (Or.inl rfl)]
  cases b <;> rfl

theorem roundtrip_uint16 {o : String} (ho : o ∈ BYTE_ORDERS) (n : ℤ) (h0 : 0 ≤ n)
    (h1 : n < 2 ^ 16) : roundtrip (.pyint n) "uint16" 1 o = some (.pyint n) := by
  have hs : pyScaled (.pyint n) 1 = ((n : ℤ) : ℚ) := pyScaled_pyint_one (by omega)
  have hov : scaleOverflow (.pyint n) 1 = false :=
    scaleOverflow_of_rep 1 (FloatRep.intCast n (by omega) (by norm_num)) (by omega)
  have henc : encode_regs (.pyint n) "uint16" 1 = some [n.toNat] := by
    rw [encode_regs_uint16 _ _ hov, hs, pytrunc_intCast]
    have h : (n % 2 ^ 16).toNat = n.toNat := by
      simp only [int_pow16]
      omega
    rw [h]
  rw [roundtrip_decode ho henc (Or.inl rfl), decode_regs_uint16, Int.toNat_of_nonneg h0,
    mul_one, roundF64_intCast (by omega), roundF64_intCast (by omega), pytrunc_intCast]

theorem roundtrip_int16 {o : String} (ho : o ∈ BYTE_ORDERS) (n : ℤ) (h0 : -(2 ^ 15) ≤ n)
    (h1 : n < 2 ^ 15) : roundtrip (.pyint n) "int16" 1 o = some (.pyint n) := by
  have hs : pyScaled (.pyint n) 1 = ((n : ℤ) : ℚ) := pyScaled_pyint_one (by omega)
  have hov : scaleOverflow (.pyint n) 1 = false :=
    scaleOverflow_of_rep 1 (FloatRep.intCast n (by omega) (by norm_num)) (by omega)
  have henc : encode_regs (.pyint n) "int16" 1 = some [(n % 2 ^ 16).toNat] := by
    rw [encode_regs_int16 _ _ hov, hs, pytrunc_intCast, if_pos ⟨h0, h1⟩]
  have hg : (n % 2 ^ 16).toNat < 2 ^ 16 := by
    simp only [int_pow16]
    omega
  rw [roundtrip_decode ho henc (Or.inl rfl), decode_regs_int16, if_pos hg]
  have hv : (if (n % 2 ^ 16).toNat < 2 ^ 15 then (((n % 2 ^ 16).toNat : ℕ) : ℤ)
      else (((n % 2 ^ 16).toNat : ℕ) : ℤ) - 2 ^ 16) = n := by
    simp only [int_pow16]
    split <;> omega
  rw [hv, mul_one, roundF64_intCast (by omega), roundF64_intCast (by omega), pytrunc_intCast]

theorem roundtrip_uint32 {o : String} (ho : o ∈ BYTE_ORDERS) (n : ℤ) (h0 : 0 ≤ n)
    (h1 : n < 2 ^ 32) : roundtrip (.pyint n) "uint32" 1 o = some (.pyint n) := by
  have hs : pyScaled (.pyint n) 1 = ((n : ℤ) : ℚ) := pyScaled_pyint_one (by omega)
  have hov : scaleOverflow (.pyint n) 1 = false :=
    scaleOverflow_of_rep 1 (FloatRep.intCast n (by omega) (by norm_num)) (by omega)
  have henc : encode_regs (.pyint n) "uint32" 1 = some (word_split n.toNat 2) := by
    rw [encode_regs_uint32 _ _ hov, hs, pytrunc_intCast, if_pos ⟨h0, h1⟩]
  rw [roundtrip_decode ho henc (Or.inr (Or.inl (word_split_length _ 2))), word_split_two,
    decode_regs_uint32,
    if_pos ⟨Nat.mod_lt _ (by norm_num), Nat.mod_lt _ (by norm_num)⟩, word_join_two]
  have hj : n.toNat / 2 ^ 16 % 2 ^ 16 * 2 ^ 16 + n.toNat % 2 ^ 16 = n.toNat := by omega
  rw [hj, natCast_eq_intCast, Int.toNat_of_nonneg h0, mul_one,
    roundF64_intCast (by omega), roundF64_intCast (by omega), pytrunc_intCast]

theorem roundtrip_int32 {o : String} (ho : o ∈ BYTE_ORDERS) (n : ℤ) (h0 : -(2 ^ 31) ≤ n)
    (h1 : n < 2 ^ 31) : roundtrip (.pyint n) "int32" 1 o = some (.pyint n) := by
  have hs : pyScaled (.pyint n) 1 = ((n : ℤ) : ℚ) := pyScaled_pyint_one (by omega)
  have hov : scaleOverflow (.pyint n) 1 = false :=
    scaleOverflow_of_rep 1 (FloatRep.intCast n (by omega) (by norm_num)) (by omega)
  have henc : encode_regs (.pyint n) "int32" 1 =
      some (word_split (n % 2 ^ 32).toNat 2) := by
    rw [encode_regs_int32 _ _ hov, hs, pytrunc_intCast, if_pos ⟨h0, h1⟩]
  rw [roundtrip_decode ho henc (Or.inr (Or.inl (word_split_length _ 2))), word_split_two,
    decode_regs_int32,
    if_pos ⟨Nat.mod_lt _ (by norm_num), Nat.mod_lt _ (by norm_num)⟩, word_join_two]
  have hj : (n % 2 ^ 32).toNat / 2 ^ 16 % 2 ^ 16 * 2 ^ 16 +
      (n % 2 ^ 32).toNat % 2 ^ 16 = (n % 2 ^ 32).toNat := by
    simp only [int_pow32]
    omega
  rw [hj]
  have hv : (if (n % 2 ^ 32).toNat < 2 ^ 31 then (((n % 2 ^ 32).toNat : ℕ) : ℤ)
      else (((n % 2 ^ 32).toNat : ℕ) : ℤ) - 2 ^ 32) = n := by
    simp only [int_pow32]
    split <;> omega
  rw [hv, mul_one, roundF64_intCast (by omega), roundF64_intCast (by omega), pytrunc_intCast]

theorem roundtrip_uint64 {o : String} (ho : o ∈ BYTE_ORDERS) (n : ℤ) (h0 : 0 ≤ n)
    (h1 : n < 2 ^ 64) (hrep : FloatRep 53 (-1074) ((n : ℤ) : ℚ)) :
    roundtrip (.pyint n) "uint64" 1 o = some (.pyint n) := by
  have hs : pyScaled (.pyint n) 1 = ((n : ℤ) : ℚ) := pyScaled_one_of_rep hrep
  have hov : scaleOverflow (.pyint n) 1 = false :=
    scaleOverflow_of_rep 1 hrep (by omega)
  have henc : encode_regs (.pyint n) "uint64" 1 = some (word_split n.toNat 4) := by
    rw [encode_regs_uint64 _ _ hov, hs, pytrunc_intCast, if_pos ⟨h0, h1⟩]
  rw [roundtrip_decode ho henc (Or.inr (Or.inr (word_split_length _ 4))), word_split_four,
    decode_regs_uint64,
    if_pos ⟨Nat.mod_lt _ (by norm_num), Nat.mod_lt _ (by norm_num),
      Nat.mod_lt _ (by norm_num), Nat.mod_lt _ (by norm_num)⟩, word_join_four]
  have hj : ((n.toNat / 2 ^ 48 % 2 ^ 16 * 2 ^ 16 + n.toNat / 2 ^ 32 % 2 ^ 16) * 2 ^ 16 +
      n.toNat / 2 ^ 16 % 2 ^ 16) * 2 ^ 16 + n.toNat % 2 ^ 16 = n.toNat := by omega
  rw [hj, natCast_eq_intCast, Int.toNat_of_nonneg h0, mul_one,
    roundF64_of_rep hrep, roundF64_of_rep hrep, pytrunc_intCast]

theorem roundtrip_int64 {o : String} (ho : o ∈ BYTE_ORDERS) (n : ℤ) (h0 : -(2 ^ 63) ≤ n)
    (h1 : n < 2 ^ 63) (hrep : FloatRep 53 (-1074) ((n : ℤ) : ℚ)) :
    roundtrip (.pyint n) "int64" 1 o = some (.pyint n) := by
  have hs : pyScaled (.pyint n) 1 = ((n : ℤ) : ℚ) := pyScaled_one_of_rep hrep
  have hov : scaleOverflow (.pyint n) 1 = false :=
    scaleOverflow_of_rep 1 hrep (by omega)
  have henc : encode_regs (.pyint n) "int64" 1 =
      some (word_split (n % 2 ^ 64).toNat 4) := by
    rw [encode_regs_int64 _ _ hov, hs, pytrunc_intCast, if_pos ⟨h0, h1⟩]
  rw [roundtrip_decode ho henc (Or.inr (Or.inr (word_split_length _ 4))), word_split_four,
    decode_regs_int64,
    if_pos ⟨Nat.mod_lt _ (by norm_num), Nat.mod_lt _ (by norm_num),
      Nat.mod_lt _ (by norm_num), Nat.mod_lt _ (by norm_num)⟩, word_join_four]
  have hj : (((n % 2 ^ 64).toNat / 2 ^ 48 % 2 ^ 16 * 2 ^ 16 +
      (n % 2 ^ 64).toNat / 2 ^ 32 % 2 ^ 16) * 2 ^ 16 +
      (n % 2 ^ 64).toNat / 2 ^ 16 % 2 ^ 16) * 2 ^ 16 +
      (n % 2 ^ 64).toNat % 2 ^ 16 = (n % 2 ^ 64).toNat := by
    simp only [int_pow64]
    omega
  rw [hj]
  have hv : (if (n % 2 ^ 64).toNat < 2 ^ 63 then (((n % 2 ^ 64).toNat : ℕ) : ℤ)
      else (((n % 2 ^ 64).toNat : ℕ) : ℤ) - 2 ^ 64) = n := by
    simp only [int_pow64]
    split <;> omega
  rw [hv, mul_one, roundF64_of_rep hrep, roundF64_of_rep hrep, pytrunc_intCast]

/-! ### IEEE-754 bit-field decomposition -/

theorem bits_fields (fb eb s ebits M : ℕ) (hs : s ≤ 1) (hebits : ebits < 2 ^ eb)
    (hM : M < 2 ^ fb) :
    (s * 2 ^ (fb + eb) + ebits * 2 ^ fb + M) % 2 ^ fb = M ∧
    (s * 2 ^ (fb + eb) + ebits * 2 ^ fb + M) / 2 ^ fb % 2 ^ eb = ebits ∧
    (s * 2 ^ (fb + eb) + ebits * 2 ^ fb + M) / 2 ^ (fb + eb) % 2 = s ∧
    s * 2 ^ (fb + eb) + ebits * 2 ^ fb + M < 2 ^ (fb + eb + 1) := by
  have hfb0 : 0 < 2 ^ fb := Nat.pos_pow_of_pos fb (by norm_num)
  have heb0 : 0 < 2 ^ eb := Nat.pos_pow_of_pos eb (by norm_num)
  have hsplit : s * 2 ^ (fb + eb) + ebits * 2 ^ fb + M =
      2 ^ fb * (s * 2 ^ eb + ebits) + M := by
    rw [pow_add]
    ring
  have hmod : (s * 2 ^ (fb + eb) + ebits * 2 ^ fb + M) % 2 ^ fb = M := by
    rw [hsplit, Nat.mul_add_mod, Nat.mod_eq_of_lt hM]
  have hdiv : (s * 2 ^ (fb + eb) + ebits * 2 ^ fb + M) / 2 ^ fb = s * 2 ^ eb + ebits := by
    rw [hsplit, Nat.mul_add_div hfb0, Nat.div_eq_of_lt hM, Nat.add_zero]
  have hexp : (s * 2 ^ (fb + eb) + ebits * 2 ^ fb + M) / 2 ^ fb % 2 ^ eb = ebits := by
    have hsplit2 : s * 2 ^ eb + ebits = 2 ^ eb * s + ebits := by ring
    rw [hdiv, hsplit2, Nat.mul_add_mod, Nat.mod_eq_of_lt hebits]
  have hlow : ebits * 2 ^ fb + M < 2 ^ (fb + eb) := by
    have h1 : ebits * 2 ^ fb + M < (ebits + 1) * 2 ^ fb := by
      rw [add_mul, one_mul]
      omega
    have h2 : (ebits + 1) * 2 ^ fb ≤ 2 ^ eb * 2 ^ fb :=
      Nat.mul_le_mul_right _ (by omega)
    calc ebits * 2 ^ fb + M < (ebits + 1) * 2 ^ fb := h1
    _ ≤ 2 ^ eb * 2 ^ fb := h2
    _ = 2 ^ (fb + eb) := by rw [pow_add]; ring
  have hsign : (s * 2 ^ (fb + eb) + ebits * 2 ^ fb + M) / 2 ^ (fb + eb) % 2 = s := by
    have h1 : s * 2 ^ (fb + eb) + ebits * 2 ^ fb + M =
        2 ^ (fb + eb) * s + (ebits * 2 ^ fb + M) := by ring
    rw [h1, Nat.mul_add_div (Nat.pos_pow_of_pos _ (by norm_num)),
      Nat.div_eq_of_lt hlow, Nat.add_zero, Nat.mod_eq_of_lt (by omega)]
  refine ⟨hmod, hexp, hsign, ?_⟩
  have h2 : s * 2 ^ (fb + eb) ≤ 2 ^ (fb + eb) := by
    calc s * 2 ^ (fb + eb) ≤ 1 * 2 ^ (fb + eb) := Nat.mul_le_mul_right _ hs
    _ = 2 ^ (fb + eb) := one_mul _
  calc s * 2 ^ (fb + eb) + ebits * 2 ^ fb + M
      = s * 2 ^ (fb + eb) + (ebits * 2 ^ fb + M) := by ring
  _ < 2 ^ (fb + eb) + 2 ^ (fb + eb) := by omega
  _ = 2 ^ (fb + eb + 1) := by rw [pow_succ]; ring

/-! ### The bits→value map inverts the value→bits map -/

theorem floatValOfBits_floatBitsOfVal {fb eb : ℕ} (heb : 2 ≤ eb) {q : ℚ}
    (hrep : FloatRep (fb + 1) (1 - ((2 : ℤ) ^ (eb - 1) - 1) - (fb : ℤ)) q)
    (hbound : |q| < (2 : ℚ) ^ ((2 : ℤ) ^ (eb - 1))) :
    floatValOfBits fb eb (floatBitsOfVal fb eb q) = some q ∧
    floatBitsOfVal fb eb q < 2 ^ (fb + eb + 1) := by
  have h4eb : 4 ≤ 2 ^ eb := by
    calc (4 : ℕ) = 2 ^ 2 := by norm_num
    _ ≤ 2 ^ eb := Nat.pow_le_pow_right (by norm_num) heb
  by_cases h0 : q = 0
  · subst h0
    have hb0 : floatBitsOfVal fb eb 0 = 0 := by
      unfold floatBitsOfVal
      rw [if_pos rfl]
    rw [hb0]
    constructor
    · unfold floatValOfBits
      rw [Nat.zero_div, Nat.zero_mod, if_neg (by omega), if_pos rfl]
      unfold bitsSign
      rw [Nat.zero_div, Nat.zero_mod, if_neg (by norm_num)]
      norm_num
    · positivity
  -- the nonzero case
  obtain ⟨m, t, hq, hm, ht⟩ := hrep
  have hm0 : m ≠ 0 := by
    rintro rfl
    simp at hq
    exact h0 hq
  have ha_pos : 0 < |q| := abs_pos.mpr h0
  have habs : |q| = ((m.natAbs : ℕ) : ℚ) * (2 : ℚ) ^ t := by
    rw [hq, abs_mul, abs_of_pos (zpow_pos (by norm_num : (0:ℚ) < 2) t), Int.cast_natAbs,
      Int.cast_abs]
  obtain ⟨hel, heu⟩ := findExp_spec |q| ha_pos
  have habs_lt : |q| < (2 : ℚ) ^ (((fb + 1 : ℕ) : ℤ) + t) := FloatRep.abs_lt hq hm
  have hef : findExp |q| ≤ (fb : ℤ) + t := by
    have h1 : findExp |q| < ((fb + 1 : ℕ) : ℤ) + t :=
      (zpow_lt_zpow_iff_right₀ (by norm_num : (1:ℚ) < 2)).mp (lt_of_le_of_lt hel habs_lt)
    push_cast at h1
    omega
  have key : ∀ k : ℤ, 0 ≤ t + k →
      |q| * (2 : ℚ) ^ k = ((m.natAbs * 2 ^ (t + k).toNat : ℕ) : ℚ) := by
    intro k hk
    rw [habs, mul_assoc, ← zpow_add₀ two_ne_zero]
    push_cast
    rw [← zpow_natCast (2 : ℚ) (t + k).toNat, Int.toNat_of_nonneg hk]
  have keytr : ∀ k : ℤ, 0 ≤ t + k →
      (pytrunc (|q| * (2 : ℚ) ^ k)).toNat = m.natAbs * 2 ^ (t + k).toNat := by
    intro k hk
    rw [key k hk, natCast_eq_intCast, pytrunc_intCast]
    omega
  set B : ℤ := (2 : ℤ) ^ (eb - 1) - 1 with hB
  have hBpos : 1 ≤ B := by
    have : (2 : ℤ) ^ 1 ≤ (2 : ℤ) ^ (eb - 1) := by
      apply pow_le_pow_right₀ (by norm_num)
      omega
    simp at this
    omega
  have hbound' : |q| < (2 : ℚ) ^ (B + 1) := by
    have h1 : B + 1 = (2 : ℤ) ^ (eb - 1) := by omega
    rw [h1]
    exact hbound
  have hs01 : (if q < 0 then (1 : ℕ) else 0) ≤ 1 := by split <;> omega
  have hsign_val : ∀ mag : ℚ, mag = |q| →
      (if (if q < 0 then (1 : ℕ) else 0) = 1 then -mag else mag) = q := by
    intro mag hmag
    subst hmag
    by_cases hneg : q < 0
    · rw [if_pos hneg, if_pos rfl, abs_of_neg hneg]
      ring
    · rw [if_neg hneg, if_neg (by norm_num), abs_of_nonneg (not_lt.mp hneg)]
  have hpull : ∀ x : ℚ,
      (if (if q < 0 then (1 : ℕ) else 0) = 1 then (-1 : ℚ) else 1) * x =
        if (if q < 0 then (1 : ℕ) else 0) = 1 then -x else x := by
    intro x
    split <;> simp
  by_cases hsub : findExp |q| < 1 - B
  · -- subnormal encoding
    have hk0 : 0 ≤ t + (B - 1 + fb) := by omega
    have htr := keytr (B - 1 + fb) hk0
    set Mn : ℕ := m.natAbs * 2 ^ (t + (B - 1 + fb)).toNat with hMn
    have hMn_lt : Mn < 2 ^ fb := by
      have h1 : ((Mn : ℕ) : ℚ) < (2 : ℚ) ^ (fb : ℤ) := by
        rw [← key (B - 1 + fb) hk0]
        calc |q| * (2 : ℚ) ^ (B - 1 + (fb : ℤ))
            < (2 : ℚ) ^ (findExp |q| + 1) * (2 : ℚ) ^ (B - 1 + (fb : ℤ)) :=
              mul_lt_mul_of_pos_right heu (zpow_pos (by norm_num) _)
        _ = (2 : ℚ) ^ (findExp |q| + 1 + (B - 1 + fb)) := (zpow_add₀ two_ne_zero _ _).symm
        _ ≤ (2 : ℚ) ^ (fb : ℤ) := by
              apply zpow_le_zpow_right₀ (by norm_num : (1:ℚ) ≤ 2)
              omega
      rw [zpow_natCast] at h1
      exact_mod_cast h1
    have hbits : floatBitsOfVal fb eb q =
        (if q < 0 then 1 else 0) * 2 ^ (fb + eb) + 0 * 2 ^ fb + Mn := by
      unfold floatBitsOfVal
      rw [← hB, if_neg h0, if_pos hsub]
      have hk_eq : (2 : ℤ) ^ (eb - 1) - 2 + (fb : ℤ) = B - 1 + fb := by rw [hB]; ring
      rw [hk_eq, htr]
      ring
    obtain ⟨hf1, hf2, hf3, hf4⟩ :=
      bits_fields fb eb (if q < 0 then 1 else 0) 0 Mn hs01 (by omega) hMn_lt
    rw [hbits]
    refine ⟨?_, hf4⟩
    unfold floatValOfBits
    rw [← hB, hf2, if_neg (by omega), if_pos rfl]
    unfold bitsSign
    rw [hf3, hf1]
    have hmag : ((Mn : ℕ) : ℚ) * (2 : ℚ) ^ (1 - B - (fb : ℤ)) = |q| := by
      rw [← key (B - 1 + fb) hk0, mul_assoc, ← zpow_add₀ two_ne_zero]
      have h1 : B - 1 + (fb : ℤ) + (1 - B - fb) = 0 := by ring
      rw [h1, zpow_zero, mul_one]
    congr 1
    rw [mul_assoc, hmag, hpull]
    exact hsign_val |q| rfl
  · -- normal encoding
    have hge : 1 - B ≤ findExp |q| := not_lt.mp hsub
    have hk0 : 0 ≤ t + ((fb : ℤ) - findExp |q|) := by omega
    have htr := keytr ((fb : ℤ) - findExp |q|) hk0
    have hkey := key ((fb : ℤ) - findExp |q|) hk0
    set e : ℤ := findExp |q| with he
    set Mn : ℕ := m.natAbs * 2 ^ (t + ((fb : ℤ) - e)).toNat with hMn
    have hMn_lt : Mn < 2 ^ (fb + 1) := by
      have h1 : ((Mn : ℕ) : ℚ) < (2 : ℚ) ^ ((fb : ℤ) + 1) := by
        rw [← hkey]
        calc |q| * (2 : ℚ) ^ ((fb : ℤ) - e)
            < (2 : ℚ) ^ (e + 1) * (2 : ℚ) ^ ((fb : ℤ) - e) :=
              mul_lt_mul_of_pos_right heu (zpow_pos (by norm_num) _)
        _ = (2 : ℚ) ^ (e + 1 + ((fb : ℤ) - e)) := (zpow_add₀ two_ne_zero _ _).symm
        _ = (2 : ℚ) ^ ((fb : ℤ) + 1) := by ring_nf
      have h2 : ((fb : ℤ) + 1) = ((fb + 1 : ℕ) : ℤ) := by push_cast; ring
      rw [h2, zpow_natCast] at h1
      exact_mod_cast h1
    have hMn_ge : 2 ^ fb ≤ Mn := by
      have h1 : (2 : ℚ) ^ (fb : ℤ) ≤ ((Mn : ℕ) : ℚ) := by
        rw [← hkey]
        calc (2 : ℚ) ^ (fb : ℤ) = (2 : ℚ) ^ (e + ((fb : ℤ) - e)) := by ring_nf
        _ = (2 : ℚ) ^ e * (2 : ℚ) ^ ((fb : ℤ) - e) := zpow_add₀ two_ne_zero _ _
        _ ≤ |q| * (2 : ℚ) ^ ((fb : ℤ) - e) :=
              mul_le_mul_of_nonneg_right hel (le_of_lt (zpow_pos (by norm_num) _))
      rw [zpow_natCast] at h1
      exact_mod_cast h1
    have heB : e ≤ B := by
      have h1 : e < B + 1 :=
        (zpow_lt_zpow_iff_right₀ (by norm_num : (1:ℚ) < 2)).mp (lt_of_le_of_lt hel hbound')
      omega
    have hebB : ((e + B).toNat : ℤ) = e + B := Int.toNat_of_nonneg (by omega)
    have hpow_eb : (2 : ℤ) ^ eb = 2 * (2 : ℤ) ^ (eb - 1) := by
      conv_lhs => rw [show eb = (eb - 1) + 1 by omega]
      rw [pow_succ]
      ring
    have hcast_eb : ((2 ^ eb : ℕ) : ℤ) = (2 : ℤ) ^ eb := by push_cast; rfl
    have hebits_lt : (e + B).toNat < 2 ^ eb := by omega
    have hebits_ne_top : (e + B).toNat ≠ 2 ^ eb - 1 := by omega
    have hebits_pos : (e + B).toNat ≠ 0 := by omega
    have hfrac_lt : Mn - 2 ^ fb < 2 ^ fb := by
      have h1 : 2 ^ (fb + 1) = 2 * 2 ^ fb := by rw [pow_succ]; ring
      omega
    have hbits : floatBitsOfVal fb eb q =
        (if q < 0 then 1 else 0) * 2 ^ (fb + eb) + (e + B).toNat * 2 ^ fb +
          (Mn - 2 ^ fb) := by
      unfold floatBitsOfVal
      rw [← hB, ← he, if_neg h0, if_neg (not_lt.mpr hge), htr]
    obtain ⟨hf1, hf2, hf3, hf4⟩ :=
      bits_fields fb eb (if q < 0 then 1 else 0) (e + B).toNat (Mn - 2 ^ fb)
        hs01 hebits_lt hfrac_lt
    rw [hbits]
    refine ⟨?_, hf4⟩
    unfold floatValOfBits
    rw [← hB, hf2, if_neg hebits_ne_top, if_neg hebits_pos]
    unfold bitsSign
    rw [hf3, hf1]
    have hMn' : 2 ^ fb + (Mn - 2 ^ fb) = Mn := by omega
    rw [hMn', hebB]
    have hexp2 : e + B - B - (fb : ℤ) = e - (fb : ℤ) := by ring
    rw [hexp2]
    have hmag : ((Mn : ℕ) : ℚ) * (2 : ℚ) ^ (e - (fb : ℤ)) = |q| := by
      rw [← hkey, mul_assoc, ← zpow_add₀ two_ne_zero]
      have h1 : (fb : ℤ) - e + (e - fb) = 0 := by ring
      rw [h1, zpow_zero, mul_one]
    congr 1
    rw [mul_assoc, hmag, hpull]
    exact hsign_val |q| rfl

/-! ### Round-trip lemmas for the float datatypes, at scale 1 -/

theorem maxF32_lt : maxF32 < (2 : ℚ) ^ ((2 : ℤ) ^ (8 - 1)) := by
  show maxF32 < (2 : ℚ) ^ ((128 : ℤ))
  rw [maxF32, show ((128 : ℤ)) = ((128 : ℕ) : ℤ) from rfl, zpow_natCast]
  exact_mod_cast (by norm_num : ((2 ^ 24 - 1) * 2 ^ 104 : ℕ) < 2 ^ 128)

theorem maxF64_lt : maxF64 < (2 : ℚ) ^ ((2 : ℤ) ^ (11 - 1)) := by
  show maxF64 < (2 : ℚ) ^ ((1024 : ℤ))
  rw [maxF64, show ((1024 : ℤ)) = ((1024 : ℕ) : ℤ) from rfl, zpow_natCast]
  exact_mod_cast (by norm_num : ((2 ^ 53 - 1) * 2 ^ 971 : ℕ) < 2 ^ 1024)

theorem roundtrip_float32 {o : String} (ho : o ∈ BYTE_ORDERS) (q : ℚ)
    (hrep : FloatRep 24 (-149) q) (hb : |q| ≤ maxF32) :
    roundtrip (.pyfloat q) "float32" 1 o = some (.pyfloat q) := by
  have hrep64 : FloatRep 53 (-1074) q := hrep.mono (by norm_num) (by norm_num)
  have hs : pyScaled (.pyfloat q) 1 = q := pyScaled_one_of_rep hrep64
  obtain ⟨hinv, hlt⟩ :=
    @floatValOfBits_floatBitsOfVal 23 8 (by norm_num) q hrep (lt_of_le_of_lt hb maxF32_lt)
  have henc : encode_regs (.pyfloat q) "float32" 1 =
      some (word_split (floatBitsOfVal 23 8 q) 2) := by
    rw [encode_regs_float32 _ _ (scaleOverflow_pyfloat q 1), hs, roundF64_of_rep hrep64,
      roundF32_of_rep hrep, if_pos hb]
  rw [roundtrip_decode ho henc (Or.inr (Or.inl (word_split_length _ 2))), word_split_two,
    decode_regs_float32,
    if_pos ⟨Nat.mod_lt _ (by norm_num), Nat.mod_lt _ (by norm_num)⟩, word_join_two]
  have hj : floatBitsOfVal 23 8 q / 2 ^ 16 % 2 ^ 16 * 2 ^ 16 +
      floatBitsOfVal 23 8 q % 2 ^ 16 = floatBitsOfVal 23 8 q := by
    have h32 : floatBitsOfVal 23 8 q < 2 ^ 32 := hlt
    omega
  rw [hj, hinv]
  show some (PyValue.pyfloat (roundF64 (q * 1))) = some (PyValue.pyfloat q)
  rw [mul_one, roundF64_of_rep hrep64]

theorem roundtrip_float64 {o : String} (ho : o ∈ BYTE_ORDERS) (q : ℚ)
    (hrep : FloatRep 53 (-1074) q) (hb : |q| ≤ maxF64) :
    roundtrip (.pyfloat q) "float64" 1 o = some (.pyfloat q) := by
  have hs : pyScaled (.pyfloat q) 1 = q := pyScaled_one_of_rep hrep
  obtain ⟨hinv, hlt⟩ :=
    @floatValOfBits_floatBitsOfVal 52 11 (by norm_num) q hrep (lt_of_le_of_lt hb maxF64_lt)
  have henc : encode_regs (.pyfloat q) "float64" 1 =
      some (word_split (floatBitsOfVal 52 11 q) 4) := by
    rw [encode_regs_float64 _ _ (scaleOverflow_pyfloat q 1), hs, roundF64_of_rep hrep]
  rw [roundtrip_decode ho henc (Or.inr (Or.inr (word_split_length _ 4))), word_split_four,
    decode_regs_float64,
    if_pos ⟨Nat.mod_lt _ (by norm_num), Nat.mod_lt _ (by norm_num),
      Nat.mod_lt _ (by norm_num), Nat.mod_lt _ (by norm_num)⟩, word_join_four]
  have hj : ((floatBitsOfVal 52 11 q / 2 ^ 48 % 2 ^ 16 * 2 ^ 16 +
      floatBitsOfVal 52 11 q / 2 ^ 32 % 2 ^ 16) * 2 ^ 16 +
      floatBitsOfVal 52 11 q / 2 ^ 16 % 2 ^ 16) * 2 ^ 16 +
      floatBitsOfVal 52 11 q % 2 ^ 16 = floatBitsOfVal 52 11 q := by
    have h64 : floatBitsOfVal 52 11 q < 2 ^ 64 := hlt
    omega
  rw [hj, hinv]
  show some (PyValue.pyfloat (roundF64 (q * 1))) = some (PyValue.pyfloat q)
  rw [mul_one, roundF64_of_rep hrep]

/-! ### Claim C1 -/

/-- C1 (counterexample): as stated, the round-trip claim is false.  With
scale 2, encoding the uint16 value 1 stores `int(1 / 2.0) = 0`, and
decoding returns 0, not 1.  And even at the default scale 1, the uint64
value `2^63 + 1` (representable in the datatype) comes back as `2^63`,
because `value / scale` passes the integer through binary64 floating
point, which cannot represent it.  So the round trip is not exact for
integer datatypes, contrary to the claim. -/
theorem C1_counterexample :
    (roundtrip (.pyint 1) "uint16" 2 "big" = some (.pyint 0) ∧
      PyValue.pyint 0 ≠ PyValue.pyint 1) ∧
    (roundtrip (.pyint (2 ^ 63 + 1)) "uint64" 1 "big" = some (.pyint (2 ^ 63)) ∧
      PyValue.pyint (2 ^ 63) ≠ PyValue.pyint (2 ^ 63 + 1) ∧ (2 ^ 63 + 1 : ℤ) < 2 ^ 64) :=
  ⟨⟨by with_unfolding_all rfl, by simp⟩,
   ⟨by with_unfolding_all rfl, by simp, by norm_num⟩⟩

/-- C1 (amended): at the default scale 1, for every supported datatype and
every byte order, `decode_value (encode_value v dt 1 order) dt 1 order`
returns exactly `v` — for bool, uint16/int16, uint32/int32 on their whole
ranges; for uint64/int64 on the values of the range that are exactly
representable in binary64 (the remaining values are altered by the
int→float conversion `value / scale` performs, see the counterexample);
and for float32/float64 values exactly representable in their format (so
the round trip is exact, well within the claimed tolerances).  With a
scale other than 1 the round trip does not generally return `v` (see the
counterexample). -/
theorem C1_roundtrip_scale_one {o : String} (ho : o ∈ BYTE_ORDERS) :
    (∀ b : Bool, roundtrip (.pybool b) "bool" 1 o = some (.pybool b)) ∧
    (∀ n : ℤ, 0 ≤ n → n < 2 ^ 16 →
      roundtrip (.pyint n) "uint16" 1 o = some (.pyint n)) ∧
    (∀ n : ℤ, -(2 ^ 15) ≤ n → n < 2 ^ 15 →
      roundtrip (.pyint n) "int16" 1 o = some (.pyint n)) ∧
    (∀ n : ℤ, 0 ≤ n → n < 2 ^ 32 →
      roundtrip (.pyint n) "uint32" 1 o = some (.pyint n)) ∧
    (∀ n : ℤ, -(2 ^ 31) ≤ n → n < 2 ^ 31 →
      roundtrip (.pyint n) "int32" 1 o = some (.pyint n)) ∧
    (∀ n : ℤ, 0 ≤ n → n < 2 ^ 64 → FloatRep 53 (-1074) ((n : ℤ) : ℚ) →
      roundtrip (.pyint n) "uint64" 1 o = some (.pyint n)) ∧
    (∀ n : ℤ, -(2 ^ 63) ≤ n → n < 2 ^ 63 → FloatRep 53 (-1074) ((n : ℤ) : ℚ) →
      roundtrip (.pyint n) "int64" 1 o = some (.pyint n)) ∧
    (∀ q : ℚ, FloatRep 24 (-149) q → |q| ≤ maxF32 →
      roundtrip (.pyfloat q) "float32" 1 o = some (.pyfloat q)) ∧
    (∀ q : ℚ, FloatRep 53 (-1074) q → |q| ≤ maxF64 →
      roundtrip (.pyfloat q) "float64" 1 o = some (.pyfloat q)) :=
  ⟨roundtrip_bool ho, roundtrip_uint16 ho, roundtrip_int16 ho, roundtrip_uint32 ho,
   roundtrip_int32 ho, roundtrip_uint64 ho, roundtrip_int64 ho,
   fun q h1 h2 => roundtrip_float32 ho q h1 h2,
   fun q h1 h2 => roundtrip_float64 ho q h1 h2⟩

/-- Witness for C1 at concrete inputs: a uint16 value through the
`little_swap` order and the float32 value 3.14 (bit pattern `0x4048F5C3`,
value `13170115/4194304`) through the `big_swap` order. -/
theorem C1_witness :
    roundtrip (.pyint 1234) "uint16" 1 "little_swap" = some (.pyint 1234) ∧
    roundtrip (.pyfloat (13170115 / 4194304)) "float32" 1 "big_swap" =
      some (.pyfloat (13170115 / 4194304)) :=
  ⟨(C1_roundtrip_scale_one (by decide)).2.1 1234 (by norm_num) (by norm_num),
   (C1_roundtrip_scale_one (by decide)).2.2.2.2.2.2.2.1 (13170115 / 4194304)
     ⟨13170115, -22, by norm_num, by norm_num, by norm_num⟩
     (by rw [maxF32, abs_of_pos (by norm_num)]; norm_num)⟩

/-! ### Helper lemmas: Register construction -/

theorem make_ok_fields {a : ℤ} {nm t dt u : String} {sc : ℚ} {bo d : String} {w : Bool}
    {r : Register} (h : Register.make a nm t dt u sc bo d w = .ok r) :
    r = ⟨a, nm, t, dt, u, sc, bo, d,
      if t = "input" ∨ t = "discrete_input" then false else w⟩ := by
  unfold Register.make at h
  by_cases h1 : t ∉ REGISTER_TYPES
  · rw [if_pos h1] at h
    exact absurd h (by simp)
  · rw [if_neg h1] at h
    by_cases h2 : dt ∉ DATATYPES.map Prod.fst
    · rw [if_pos h2] at h
      exact absurd h (by simp)
    · rw [if_neg h2] at h
      by_cases h3 : bo ∉ BYTE_ORDERS
      · rw [if_pos h3] at h
        exact absurd h (by simp)
      · rw [if_neg h3] at h
        simp only [Except.ok.injEq] at h
        exact h.symm

theorem make_ok_writable_false {a : ℤ} {nm t dt u : String} {sc : ℚ} {bo d : String}
    {w : Bool} {r : Register} (h : Register.make a nm t dt u sc bo d w = .ok r)
    (ht : t = "input" ∨ t = "discrete_input") : r.writable = false := by
  rw [make_ok_fields h]
  show (if t = "input" ∨ t = "discrete_input" then false else w) = false
  rw [if_pos ht]

theorem regOfRaw_ok_writable {rd : RawRegister} {r : Register}
    (h : regOfRaw rd = .ok r) (ht : r.type = "input" ∨ r.type = "discrete_input") :
    r.writable = false := by
  unfold regOfRaw at h
  cases ha : rd.address with
  | none => rw [ha] at h; exact absurd h (by simp)
  | some a =>
    rw [ha] at h
    cases hn : rd.name with
    | none => rw [hn] at h; exact absurd h (by simp)
    | some nm =>
      rw [hn] at h
      have htype : r.type = rd.type.getD "holding" := by
        rw [make_ok_fields h]
      exact make_ok_writable_false h (htype ▸ ht)

/-! ### Claim C3 -/

/-- C3: for every successfully constructed `Register`, if its type is
input or discrete_input then its `writable` field is false regardless of
the writable value supplied at construction; if its type is holding or
coil then `writable` defaults to true when not supplied. -/
theorem C3_writable_forced_and_default :
    (∀ (a : ℤ) (nm t dt u : String) (sc : ℚ) (bo d : String) (w : Bool) (r : Register),
      (t = "input" ∨ t = "discrete_input") →
      Register.make a nm t dt u sc bo d w = .ok r → r.writable = false) ∧
    (∀ (a : ℤ) (nm t dt u : String) (sc : ℚ) (bo d : String) (r : Register),
      (t = "holding" ∨ t = "coil") →
      Register.make a nm t dt u sc bo d = .ok r → r.writable = true) := by
  constructor
  · intro a nm t dt u sc bo d w r ht h
    exact make_ok_writable_false h ht
  · intro a nm t dt u sc bo d r ht h
    rw [make_ok_fields h]
    show (if t = "input" ∨ t = "discrete_input" then false else true) = true
    rcases ht with rfl | rfl <;> rw [if_neg (by decide)]

/-- Witness for C3 at concrete inputs: an input register constructed with
`writable := true` still ends up read-only, and a holding register with
the writable argument not supplied ends up writable. -/
theorem C3_witness :
    (⟨7, "a", "input", "uint16", "", 1, "big", "", false⟩ : Register).writable = false ∧
    (⟨8, "b", "holding", "uint16", "", 1, "big", "", true⟩ : Register).writable = true :=
  ⟨C3_writable_forced_and_default.1 7 "a" "input" "uint16" "" 1 "big" "" true _
     (Or.inl rfl) (by with_unfolding_all rfl),
   C3_writable_forced_and_default.2 8 "b" "holding" "uint16" "" 1 "big" "" _
     (Or.inl rfl) (by with_unfolding_all rfl)⟩

/-! ### Claim C7 -/

/-- C7: Register construction fails with a validation error for every
input whose type, datatype or byte_order lies outside its enumerated set,
and succeeds (no error) whenever all three are in their enumerated sets. -/
theorem C7_validation (a : ℤ) (nm t dt u : String) (sc : ℚ) (bo d : String) (w : Bool) :
    ((∃ r, Register.make a nm t dt u sc bo d w = Except.ok r) ↔
      (t ∈ REGISTER_TYPES ∧ dt ∈ DATATYPES.map Prod.fst ∧ bo ∈ BYTE_ORDERS)) ∧
    (t ∉ REGISTER_TYPES ∨ dt ∉ DATATYPES.map Prod.fst ∨ bo ∉ BYTE_ORDERS →
      ∃ e, Register.make a nm t dt u sc bo d w = Except.error e) := by
  unfold Register.make
  by_cases h1 : t ∉ REGISTER_TYPES
  · rw [if_pos h1]
    exact ⟨by simp [h1], fun _ => ⟨_, rfl⟩⟩
  · rw [if_neg h1]
    by_cases h2 : dt ∉ DATATYPES.map Prod.fst
    · rw [if_pos h2]
      exact ⟨by simp [h2], fun _ => ⟨_, rfl⟩⟩
    · rw [if_neg h2]
      by_cases h3 : bo ∉ BYTE_ORDERS
      · rw [if_pos h3]
        exact ⟨by simp [h3], fun _ => ⟨_, rfl⟩⟩
      · rw [if_neg h3]
        refine ⟨⟨fun _ => ⟨not_not.mp h1, not_not.mp h2, not_not.mp h3⟩, fun _ => ⟨_, rfl⟩⟩, ?_⟩
        intro hbad
        rcases hbad with hb | hb | hb
        · exact absurd hb h1
        · exact absurd hb h2
        · exact absurd hb h3

/-- Witness for C7: a valid coil register constructs, and an unknown
datatype makes construction fail. -/
theorem C7_witness :
    (∃ r, Register.make 5 "temp" "coil" "bool" "" 1 "big" "" true = Except.ok r) ∧
    (∃ e, Register.make 5 "temp" "holding" "u8" "" 1 "big" "" true = Except.error e) :=
  ⟨(C7_validation 5 "temp" "coil" "bool" "" 1 "big" "" true).1.mpr (by decide),
   (C7_validation 5 "temp" "holding" "u8" "" 1 "big" "" true).2 (Or.inr (Or.inl (by decide)))⟩

/-! ### Helper lemmas: mapM over Except -/

theorem except_bind_ok {ε α β : Type} (a : α) (f : α → Except ε β) :
    (Except.ok a : Except ε α) >>= f = f a := rfl

theorem except_bind_error {ε α β : Type} (e : ε) (f : α → Except ε β) :
    (Except.error e : Except ε α) >>= f = Except.error e := rfl

theorem except_pure_eq {ε α : Type} (a : α) :
    (pure a : Except ε α) = Except.ok a := rfl

theorem mapM_error_of_mem {α β ε : Type} (f : α → Except ε β) :
    ∀ (l : List α) (x : α), x ∈ l → (∀ b, f x ≠ .ok b) →
      ∃ e, l.mapM f = .error e := by
  intro l
  induction l with
  | nil =>
    intro x hx
    simp at hx
  | cons hd tl ih =>
    intro x hx hfx
    rw [List.mapM_cons]
    cases hf : f hd with
    | error e => exact ⟨e, by rw [except_bind_error]⟩
    | ok b =>
      rcases List.mem_cons.mp hx with rfl | hmem
      · exact absurd hf (hfx b)
      · obtain ⟨e, he⟩ := ih x hmem hfx
        exact ⟨e, by rw [except_bind_ok, he, except_bind_error]⟩

theorem mem_of_mapM_ok {α β ε : Type} (f : α → Except ε β) :
    ∀ (l : List α) (res : List β), l.mapM f = .ok res →
      ∀ b ∈ res, ∃ x ∈ l, f x = .ok b := by
  intro l
  induction l with
  | nil =>
    intro res hres b hb
    rw [List.mapM_nil, except_pure_eq] at hres
    injection hres with hres
    subst hres
    simp at hb
  | cons hd tl ih =>
    intro res hres b hb
    rw [List.mapM_cons] at hres
    cases hf : f hd with
    | error e =>
      rw [hf, except_bind_error] at hres
      exact Except.noConfusion hres
    | ok b0 =>
      rw [hf, except_bind_ok] at hres
      cases hm : tl.mapM f with
      | error e =>
        rw [hm, except_bind_error] at hres
        exact Except.noConfusion hres
      | ok res0 =>
        rw [hm, except_bind_ok, except_pure_eq] at hres
        injection hres with hres
        subst hres
        rcases List.mem_cons.mp hb with rfl | hmem
        · exact ⟨hd, List.mem_cons_self hd tl, hf⟩
        · obtain ⟨x, hxl, hfx⟩ := ih res0 hm b hmem
          exact ⟨x, List.mem_cons_of_mem hd hxl, hfx⟩

/-! ### Helper lemmas: from_dict -/

theorem from_dict_register_of_mem {doc : RawDoc} {m : RegisterMap}
    (h : RegisterMap.from_dict doc = .ok m) :
    ∀ r ∈ m.registers, ∃ rd : RawRegister, regOfRaw rd = .ok r := by
  intro r hr
  unfold RegisterMap.from_dict at h
  cases hev : doc.events.mapM (fun ev => do
      let registers ← ev.2.mapM regOfRaw
      pure (ev.1, registers)) with
  | error e =>
    rw [hev, except_bind_error] at h
    exact Except.noConfusion h
  | ok events =>
    rw [hev, except_bind_ok, except_pure_eq] at h
    injection h with h
    subst h
    have hr' : r ∈ (events.map Prod.snd).flatten := hr
    rw [List.mem_flatten] at hr'
    obtain ⟨regs, hregs, hrregs⟩ := hr'
    rw [List.mem_map] at hregs
    obtain ⟨ev, hevmem, hsnd⟩ := hregs
    obtain ⟨raw, hrawmem, hraw⟩ := mem_of_mapM_ok _ doc.events events hev ev hevmem
    cases hinner : raw.2.mapM regOfRaw with
    | error e =>
      rw [hinner, except_bind_error] at hraw
      exact Except.noConfusion hraw
    | ok rs =>
      rw [hinner, except_bind_ok, except_pure_eq] at hraw
      injection hraw with hraw
      have hrs : regs = rs := by
        rw [← hraw] at hsnd
        exact hsnd.symm
      subst hrs
      obtain ⟨rd, hrdmem, hrd⟩ := mem_of_mapM_ok regOfRaw raw.2 regs hinner r hrregs
      exact ⟨rd, hrd⟩

/-! ### Claim C8 -/

/-- C8: building a catalogue from a document fails with a structural error
for every document in which some register entry lacks the address field or
the name field; for every register entry that has both, all other fields
take their defaults (type holding, datatype uint16, unit empty, scale 1.0,
byte_order big, writable true, description empty) when absent. -/
theorem C8_required_fields_and_defaults :
    (∀ doc : RawDoc,
      (∃ ev ∈ doc.events, ∃ rd ∈ ev.2, rd.address = none ∨ rd.name = none) →
      ∃ e, RegisterMap.from_dict doc = .error e) ∧
    (∀ (rd : RawRegister) (a : ℤ) (nm : String),
      rd.address = some a → rd.name = some nm → rd.type = none → rd.datatype = none →
      rd.unit = none → rd.scale = none → rd.byte_order = none → rd.description = none →
      rd.writable = none →
      regOfRaw rd = .ok ⟨a, nm, "holding", "uint16", "", 1, "big", "", true⟩) := by
  constructor
  · rintro doc ⟨ev, hev, rd, hrd, hbad⟩
    have hfail : ∀ b, regOfRaw rd ≠ Except.ok b := by
      intro b
      unfold regOfRaw
      rcases hbad with h | h
      · rw [h]
        simp
      · rw [h]
        cases rd.address <;> simp
    obtain ⟨e, he⟩ := mapM_error_of_mem regOfRaw ev.2 rd hrd hfail
    have hevfail : ∀ b, (do
        let registers ← ev.2.mapM regOfRaw
        pure (ev.1, registers) : Except LoadError (String × List Register)) ≠ Except.ok b := by
      intro b
      rw [he, except_bind_error]
      exact fun hc => Except.noConfusion hc
    obtain ⟨e2, he2⟩ := mapM_error_of_mem
      (fun ev => do
        let registers ← ev.2.mapM regOfRaw
        pure (ev.1, registers))
      doc.events ev hev hevfail
    refine ⟨e2, ?_⟩
    unfold RegisterMap.from_dict
    rw [he2, except_bind_error]
  · intro rd a nm h1 h2 h3 h4 h5 h6 h7 h8 h9
    obtain ⟨oa, onm, ot, odt, ou, osc, obo, od, ow⟩ := rd
    simp only at h1 h2 h3 h4 h5 h6 h7 h8 h9
    subst h1 h2 h3 h4 h5 h6 h7 h8 h9
    with_unfolding_all rfl

/-- Witness for C8: a document whose only entry lacks `address` fails, and
a minimal entry receives every default. -/
theorem C8_witness :
    (∃ e, RegisterMap.from_dict
      ⟨none, none, [("g", [⟨none, some "x", none, none, none, none, none, none, none⟩])]⟩ =
        .error e) ∧
    regOfRaw ⟨some 2, some "y", none, none, none, none, none, none, none⟩ =
      .ok ⟨2, "y", "holding", "uint16", "", 1, "big", "", true⟩ :=
  ⟨C8_required_fields_and_defaults.1 _
     ⟨("g", [⟨none, some "x", none, none, none, none, none, none, none⟩]), by simp,
      ⟨none, some "x", none, none, none, none, none, none, none⟩, by simp, Or.inl rfl⟩,
   C8_required_fields_and_defaults.2 _ 2 "y" rfl rfl rfl rfl rfl rfl rfl rfl rfl⟩

/-! ### Claim C4 -/

/-- Counterexample to the universally quantified reading of C4: a holding
register declared with `writable: false` is excluded from
`writable_registers`, so it is not true that every register of type
holding appears there.  The catalogue built from `holdingNotWritableDoc`
has one holding register, writable `false`, and an empty
`writable_registers` view. -/
theorem C4_counterexample :
    (RegisterMap.from_dict holdingNotWritableDoc).map
      (fun m => (m.writable_registers, m.registers.map Register.type,
                 m.registers.map Register.writable)) =
      .ok ([], ["holding"], [false]) := by
  with_unfolding_all rfl

/-- C4 (amended): in every catalogue built by `from_dict`,
`writable_registers` is exactly the writable filter of the flat register
list; every register of type input or discrete_input has `writable = false`
and is excluded from it, regardless of which event group it is in; and
every register whose `writable` flag is true (which holding and coil
registers keep by default, but can lose through an explicit
`writable: false`) appears in it. -/
theorem C4_writable_view {doc : RawDoc} {m : RegisterMap}
    (h : RegisterMap.from_dict doc = .ok m) :
    m.writable_registers = m.registers.filter (fun r => r.writable) ∧
    (∀ r ∈ m.registers, (r.type = "input" ∨ r.type = "discrete_input") →
      r.writable = false ∧ r ∉ m.writable_registers) ∧
    (∀ r ∈ m.registers, r.writable = true → r ∈ m.writable_registers) := by
  refine ⟨rfl, ?_, ?_⟩
  · intro r hr ht
    obtain ⟨rd, hrd⟩ := from_dict_register_of_mem h r hr
    have hw : r.writable = false := regOfRaw_ok_writable hrd ht
    refine ⟨hw, ?_⟩
    intro hmem
    have htrue := (List.mem_filter.mp hmem).2
    rw [hw] at htrue
    exact Bool.noConfusion htrue
  · intro r hr hw
    exact List.mem_filter.mpr ⟨hr, hw⟩

/-- Witness for C4: the input register of `inputRegisterDoc` is read-only
and absent from the writable view of its catalogue. -/
theorem C4_witness :
    RegisterMap.from_dict inputRegisterDoc = .ok inputRegisterMap ∧
    ((⟨1, "r1", "input", "uint16", "", 1, "big", "", false⟩ : Register).writable = false ∧
     (⟨1, "r1", "input", "uint16", "", 1, "big", "", false⟩ : Register) ∉
       inputRegisterMap.writable_registers) := by
  have hfd : RegisterMap.from_dict inputRegisterDoc = .ok inputRegisterMap := by
    with_unfolding_all rfl
  have hmem : (⟨1, "r1", "input", "uint16", "", 1, "big", "", false⟩ : Register) ∈
      inputRegisterMap.registers := by
    have hregs : inputRegisterMap.registers =
        [⟨1, "r1", "input", "uint16", "", 1, "big", "", false⟩] := by
      with_unfolding_all rfl
    rw [hregs]
    exact List.mem_singleton.mpr rfl
  exact ⟨hfd, (C4_writable_view hfd).2.1 _ hmem (Or.inl rfl)⟩

/-! ### Claim C5 -/

/-- Counterexample to the indicator list of C5: the description
`"connection aborted by peer"` is classified as a connection error by the
code, yet contains none of the seven indicator substrings the
specification lists (the code has an eighth indicator, `"connection"`). -/
theorem C5_counterexample :
    is_connection_error "connection aborted by peer" = true ∧
    claimed_indicators.all
      (fun ind => !(substringOf ind.data (py_lower "connection aborted by peer").data)) =
      true :=
  ⟨by with_unfolding_all rfl, by with_unfolding_all rfl⟩

/-- C5 (amended): the detector classifies a failure as a connection error
exactly when the lowercased description contains one of the EIGHT code
indicators (connection, timeout, refused, reset, broken pipe, no response,
disconnected, not connected); on a poll failure so classified the client
clears its connected flag and skips the inter-poll sleep, while any other
poll failure keeps the flag and sleeps. -/
theorem C5_connection_error_detection (msg : String) (s : ClientState) :
    (is_connection_error msg = true ↔
      ∃ ind ∈ connection_indicators,
        substringOf ind.data (py_lower msg).data = true) ∧
    (is_connection_error msg = true →
      poll_iteration s (.exn msg) =
        ({ s with connected := false, error_count := s.error_count + 1 }, false)) ∧
    (is_connection_error msg = false →
      poll_iteration s (.exn msg) =
        ({ s with error_count := s.error_count + 1 }, true)) := by
  refine ⟨?_, ?_, ?_⟩
  · unfold is_connection_error
    simp [List.any_eq_true]
  · intro h
    simp [poll_iteration, h]
  · intro h
    simp [poll_iteration, h]

/-- Witness for C5: `"read timeout"` is detected, drops the connection flag
and skips the sleep. -/
theorem C5_witness :
    is_connection_error "read timeout" = true ∧
    poll_iteration ⟨true, 5, 0⟩ (.exn "read timeout") = (⟨false, 5, 1⟩, false) :=
  ⟨by with_unfolding_all rfl,
   (C5_connection_error_detection "read timeout" ⟨true, 5, 0⟩).2.1
     (by with_unfolding_all rfl)⟩

/-! ### Claim C6 -/

/-- C6: a register with `writable = false` is rejected by
`write_register_value` before any transport call; the named write reports
the not-writable reason with the register type, an unknown name reports the
distinct not-found reason; the rejection outcomes are distinct from each
other and from every transport-calling outcome. -/
theorem C6_write_rejection (m : RegisterMap) (name : String) (q : ℚ) (reg : Register)
    (v : PyValue) :
    (reg.writable = false → write_register_value reg v = .rejectedNotWritable) ∧
    (m.get_by_name name = some reg → reg.writable = false →
      write_named_register (some m) name q =
        .notWritable ("Register " ++ sq ++ name ++ sq ++ " is not writable (type: "
          ++ reg.type ++ ")")) ∧
    (m.get_by_name name = none →
      write_named_register (some m) name q =
        .notFound ("Register " ++ sq ++ name ++ sq ++ " not found")) ∧
    (∀ e1 e2 : String, NamedWriteOutcome.notWritable e1 ≠ NamedWriteOutcome.notFound e2) ∧
    (∀ c : TransportCall, WriteBehavior.rejectedNotWritable ≠ .callsTransport c) ∧
    (∀ e : String, ∀ b : WriteBehavior,
      NamedWriteOutcome.notWritable e ≠ .proceeds b ∧
      NamedWriteOutcome.notFound e ≠ .proceeds b) := by
  refine ⟨?_, ?_, ?_, ?_, ?_, ?_⟩
  · intro h
    simp [write_register_value, h]
  · intro hfind hw
    simp [write_named_register, hfind, hw]
  · intro hfind
    simp [write_named_register, hfind]
  · intro e1 e2 hc
    exact NamedWriteOutcome.noConfusion hc
  · intro c hc
    exact WriteBehavior.noConfusion hc
  · intro e b
    exact ⟨fun hc => NamedWriteOutcome.noConfusion hc,
           fun hc => NamedWriteOutcome.noConfusion hc⟩

/-- Witness for C6: the read-only input register `sensor` of `sensorMap` is
rejected with the exact not-writable message, and an unknown name gets the
not-found message. -/
theorem C6_witness :
    write_register_value ⟨3, "sensor", "input", "uint16", "", 1, "big", "", false⟩
        (.pyfloat 7) = .rejectedNotWritable ∧
    write_named_register (some sensorMap) "sensor" 7 =
      .notWritable ("Register " ++ sq ++ "sensor" ++ sq ++ " is not writable (type: "
        ++ "input" ++ ")") ∧
    write_named_register (some sensorMap) "missing" 7 =
      .notFound ("Register " ++ sq ++ "missing" ++ sq ++ " not found") := by
  refine ⟨?_, ?_, ?_⟩
  · exact (C6_write_rejection sensorMap "sensor" 7
      ⟨3, "sensor", "input", "uint16", "", 1, "big", "", false⟩ (.pyfloat 7)).1 rfl
  · exact (C6_write_rejection sensorMap "sensor" 7
      ⟨3, "sensor", "input", "uint16", "", 1, "big", "", false⟩ (.pyfloat 7)).2.1
      (by with_unfolding_all rfl) rfl
  · exact (C6_write_rejection sensorMap "missing" 7
      ⟨3, "sensor", "input", "uint16", "", 1, "big", "", false⟩ (.pyfloat 7)).2.2.1
      (by with_unfolding_all rfl)

end Modbus
